import Mathlib

/-!
Shallow embedding of the multipart-upload engine of `iharbor-s3` (Django app `s3api`),
covering the code paths of `s3api/sub_views.py` (create_multipart_upload, upload_part,
complete_multipart_upload, abort_multipart_upload and their helpers), the model methods
of `s3api/models.py` (`MultipartUpload`, `ObjectPartBase`) and the managers of
`s3api/managers.py`.

Conventions of the embedding:
* Database tables are lists of rows; the iteration order of an unordered queryset
  (`.filter(...).all()` with no `order_by`, as in
  `ObjectPartManager.get_parts_queryset_by_upload_id`) is the list order of the table.
* Fallible database writes/deletes and fallible rados (backend byte-store) operations
  draw successive booleans from oracle functions `dbOk` / `radosOk` applied to a counter
  threaded through the state; this models the `try: ... except: return False` wrappers
  (`safe_delete`, `set_composing`, `save`) and `rados.write`/`rados.delete` result codes.
* The backend byte store for the destination object is modelled as an append-only write
  log (offset, block); a part's backend content is an environment function from its row
  id to the chunk list its `read_obj_generator` yields.
* `utils/md5.py` and `s3api/harbor.py` are not under `src/`; the entities taken from
  them (`S3ObjectMultipartETagHandler`, `FileMD5Handler`, `HarborManager.get_or_create_obj`,
  `HarborManager._pre_reset_upload`) are modelled from the spec where noted, with the
  two digest functions kept as parameters of the environment.
-/

namespace IHarbor

/-- Error kinds: the `S3Error` subclasses raised by the multipart code
(`s3api/exceptions.py` is referenced by every view; kinds named after the classes
appearing in `sub_views.py`). `attributeErr` stands for a Python `AttributeError`
escaping the view (an uncaught non-S3Error exception, surfaced by
`CustomGenericViewSet.handle_exception` as a 500 crash, not as an S3 error document). -/
inductive S3Err where
  | malformedXML
  | invalidPart
  | invalidPartOrder
  | entityTooSmall
  | noSuchUpload
  | completeAlreadyInProgress
  | internalErr
  | invalidRequest
  | attributeErr
  deriving DecidableEq, Repr

/-- Decidable equality for `Except` results, so concrete runs can be checked by
`decide`. -/
instance instDecEqExcept {e a : Type} [DecidableEq e] [DecidableEq a] :
    DecidableEq (Except e a) := fun x y =>
  match x, y with
  | .ok v, .ok w =>
    if h : v = w then isTrue (by rw [h]) else isFalse (by simp [h])
  | .error v, .error w =>
    if h : v = w then isTrue (by rw [h]) else isFalse (by simp [h])
  | .ok _, .error _ => isFalse (by simp)
  | .error _, .ok _ => isFalse (by simp)

/-- Lifecycle states of `MultipartUpload.status` (`STATUS_UPLOADING = 1`,
`STATUS_COMPOSING = 2`, `STATUS_COMPLETED = 3`). -/
inductive UStatus where
  | uploading
  | composing
  | completed
  deriving DecidableEq, Repr

/-- One row of the `multipart_upload` table (`s3api/models.py, MultipartUpload`).
`key_md5` is omitted: it is kept equal to the md5 of `obj_key` on every save and the
queryset filters that use it always also filter on `obj_key` itself. Times are Nat. -/
structure DbUpload where
  uid : String
  bucket_id : Nat
  bucket_name : String
  obj_id : Nat
  obj_key : String
  status : UStatus
  obj_perms_code : Nat
  expire_time : Option Nat
  deriving DecidableEq, Repr

/-- One row of a bucket's parts table (`s3api/models.py, ObjectPartBase`).
`pid` is the autoincrement primary key; `obj_offset` defaults to `-1`,
`obj_id` to `0` ("not yet composed"). -/
structure DbPart where
  pid : Nat
  upload_id : String
  obj_id : Nat
  part_num : Nat
  size : Nat
  obj_offset : Int
  part_md5 : String
  obj_etag : String
  parts_count : Nat
  modified_time : Nat
  deriving DecidableEq, Repr

/-- The fields of `ObjectPartBase` that a `save(update_fields=[...])` call can name. -/
inductive PartField where
  | size
  | part_md5
  | upload_id
  | modified_time
  | obj_offset
  | obj_etag
  | obj_id
  | parts_count
  deriving DecidableEq, Repr

/-- Copy one named field from the in-memory instance `mem` into the stored row `db`:
the semantics of listing that field in `update_fields`. -/
def copyField (db mem : DbPart) : PartField → DbPart
  | .size => { db with size := mem.size }
  | .part_md5 => { db with part_md5 := mem.part_md5 }
  | .upload_id => { db with upload_id := mem.upload_id }
  | .modified_time => { db with modified_time := mem.modified_time }
  | .obj_offset => { db with obj_offset := mem.obj_offset }
  | .obj_etag => { db with obj_etag := mem.obj_etag }
  | .obj_id => { db with obj_id := mem.obj_id }
  | .parts_count => { db with parts_count := mem.parts_count }

/-- `instance.save(update_fields=fs)` on an existing row: only the listed fields of the
in-memory instance are persisted, every other stored field keeps its database value. -/
def applyUpdateFields (db mem : DbPart) (fs : List PartField) : DbPart :=
  fs.foldl (fun acc f => copyField acc mem f) db

/-- The destination object's metadata row (`BucketFileBase` of the bucket's object
table, the fields written by the completion engine: `si` size, `md5` checksum,
`upt` modified time, `share` ACL code, `stl` share-time-limit flag). -/
structure ObjMeta where
  oid : Nat
  na : String
  si : Nat
  md5 : String
  share : Nat
  stl : Bool
  upt : Nat
  deriving DecidableEq, Repr

/-- `S3_MULTIPART_UPLOAD_MIN_SIZE` default: 5 MiB (`sub_views.py`). -/
def MULTIPART_UPLOAD_MIN_SIZE : Nat := 5 * 1024 ^ 2

/-- `S3_MULTIPART_UPLOAD_MAX_SIZE` default: 2 GiB (`sub_views.py`). -/
def MULTIPART_UPLOAD_MAX_SIZE : Nat := 2 * 1024 ^ 3

/-- One `Part` element of the parsed CompleteMultipartUpload XML manifest, as the XML
parser delivers it: either key may be missing. -/
structure RawPart where
  partNumber : Option Nat
  eTag : Option String
  deriving DecidableEq, Repr

/-- One manifest entry after `handle_validate_complete_parts`: keyed by part number;
the ETag is kept optional because `get_upload_parts_and_validate` re-checks its
presence (`if ETag not in c_part`). -/
structure CPart where
  num : Nat
  etag : Option String
  deriving DecidableEq, Repr

/-- Python `s.strip(q)` for the single character `q`: remove every leading and
trailing occurrence. Used on manifest ETags (`c_part["ETag"].strip(quote)`). -/
def stripChar (q : Char) (s : String) : String :=
  String.mk (((s.toList.dropWhile (· = q)).reverse.dropWhile (· = q)).reverse)

/-- The loop body of `handle_validate_complete_parts` (`sub_views.py`): checks each
manifest entry has both keys (else `S3MalformedXML`), a part number in `1..10000`
(else `S3InvalidPart`) and strictly ascending numbers (else `S3InvalidPartOrder`);
returns the entries keyed by number together with the number list. -/
def validateCompletePartsLoop (preNum : Nat) :
    List RawPart → Except S3Err (List CPart × List Nat)
  | [] => .ok ([], [])
  | p :: rest =>
    match p.partNumber, p.eTag with
    | some n, some e =>
      if 1 ≤ n ∧ n ≤ 10000 then
        if n ≤ preNum then .error .invalidPartOrder
        else
          match validateCompletePartsLoop n rest with
          | .ok (ps, ns) => .ok (⟨n, some e⟩ :: ps, n :: ns)
          | .error err => .error err
      else .error .invalidPart
    | _, _ => .error .malformedXML

/-- `handle_validate_complete_parts(parts)` (`sub_views.py`): validate the client
manifest shape; `pre_num` starts at 0. -/
def handle_validate_complete_parts (parts : List RawPart) :
    Except S3Err (List CPart × List Nat) :=
  validateCompletePartsLoop 0 parts

/-- Ordered-dict insert with Python `dict` semantics: assigning an existing key
replaces its value in place, a new key is appended. -/
def dictInsert (k : Nat) (v : DbPart) : List (Nat × DbPart) → List (Nat × DbPart)
  | [] => [(k, v)]
  | (k', v') :: rest =>
    if k' = k then (k, v) :: rest else (k', v') :: dictInsert k v rest

/-- Ordered-dict lookup. -/
def dictLookup (k : Nat) : List (Nat × DbPart) → Option DbPart
  | [] => none
  | (k', v') :: rest => if k' = k then some v' else dictLookup k rest

/-- The `for part in upload_parts_qs` loop of `get_upload_parts_and_validate`
(`sub_views.py`): scans the upload's stored parts in queryset order; a part whose
number is in the manifest is a "used" part and is checked (minimum size unless it is
the last manifest number, then claimed-vs-stored checksum), its checksum is appended
to the ETag-digest update sequence; any other part is collected as "unused". -/
def uploadPartsScan (minSize lastNum : Nat) (manifest : List CPart) :
    List DbPart → List (Nat × DbPart) → List DbPart → List String →
    Except S3Err (List (Nat × DbPart) × List DbPart × List String)
  | [], used, unused, updates => .ok (used, unused, updates)
  | part :: rest, used, unused, updates =>
    match manifest.find? (fun c => c.num = part.part_num) with
    | some c =>
      if part.size < minSize ∧ part.part_num ≠ lastNum then .error .entityTooSmall
      else
        match c.etag with
        | none => .error .invalidPart
        | some e =>
          if stripChar '"' e ≠ part.part_md5 then .error .invalidPart
          else
            uploadPartsScan minSize lastNum manifest rest
              (dictInsert part.part_num part used) unused (updates ++ [part.part_md5])
    | none => uploadPartsScan minSize lastNum manifest rest used (unused ++ [part]) updates

/-- `get_upload_parts_and_validate` (`sub_views.py`), as a function of the upload's
parts queryset (in table order) and the validated manifest. `hETag` models
`S3ObjectMultipartETagHandler` from the missing `utils/md5.py`.
Modelled from the spec: the handler incrementally hashes the sequence of
`update(part_md5)` calls into one hex digest, so it is a function of that sequence.
Returns (used dict in insertion order, unused list, composite ETag string); the final
count check (`obj_parts_count != len(complete_parts)`) raises `S3InvalidPart`.
The ETag is `quote ++ hexdigest ++ dash ++ count ++ quote` exactly as the f-string
builds it. -/
def get_upload_parts_and_validate (hETag : List String → String) (minSize : Nat)
    (uploadParts : List DbPart) (manifest : List CPart) :
    Except S3Err (List (Nat × DbPart) × List DbPart × String) :=
  let lastNum := ((manifest.map CPart.num).getLast?).getD 0
  match uploadPartsScan minSize lastNum manifest uploadParts [] [] [] with
  | .error e => .error e
  | .ok (used, unused, updates) =>
    if used.length ≠ manifest.length then .error .invalidPart
    else
      .ok (used, unused,
        "\"" ++ hETag updates ++ "-" ++ toString used.length ++ "\"")

/-- The request-independent environment: the two digest functions of the missing
`utils/md5.py` (kept abstract), the backend content of each part row (by row id, as
the chunk list `read_obj_generator` yields), the success oracles for rados operations
and for fallible database operations, the clock and the ids handed out on inserts. -/
structure Env where
  hETag : List String → String
  fmd5 : List Nat → String
  partChunks : Nat → List (List Nat)
  radosOk : Nat → Bool
  dbOk : Nat → Bool
  now : Nat
  newObjId : Nat
  newPid : Nat
  newUploadId : String

/-- Mutable state seen by one request: the upload row (`none` once deleted), the
bucket's parts table, the destination object's metadata row for the request key, the
destination object's backend bytes as a write log (offset, block) — reset to `[]` by
the pre-reset step — the set (list) of part row ids whose backend bytes were deleted,
and the oracle counters. -/
structure St where
  upload : Option DbUpload
  parts : List DbPart
  obj : Option ObjMeta
  objWrites : List (Nat × List Nat)
  partBytesDeleted : List Nat
  dbCtr : Nat
  radosCtr : Nat
  deriving DecidableEq, Repr

/-- Observable events of one request, in order. -/
inductive Ev where
  | statusSet (s : UStatus) (ok : Bool)
  | uploadDelete (ok : Bool)
  | objCreate
  | preReset
  | partWrite (num offset size : Nat)
  | chunkWrite (offset len : Nat)
  | partRowSave (pid : Nat) (ok : Bool)
  | objMetaSave (ok : Bool)
  | partMetaDelete (pid : Nat) (ok : Bool)
  | partBytesDelete (pid : Nat) (ok : Bool)
  deriving DecidableEq, Repr

/-- Draw the next fallible-database-operation result. -/
def St.drawDb (st : St) (env : Env) : Bool × St :=
  (env.dbOk st.dbCtr, { st with dbCtr := st.dbCtr + 1 })

/-- Draw the next rados-operation result. -/
def St.drawRados (st : St) (env : Env) : Bool × St :=
  (env.radosOk st.radosCtr, { st with radosCtr := st.radosCtr + 1 })

/-- `MultipartUpload.set_composing / set_uploading / set_completed`
(`s3api/models.py`): a no-op returning True if the status already matches, otherwise
an in-memory assignment followed by `save(update_fields=[status])`, returning False
when the save raises. Returns (state, in-memory instance, success, events); the stored
row changes only when the save succeeds. -/
def setStatus (env : Env) (st : St) (u : DbUpload) (s : UStatus) :
    St × DbUpload × Bool × List Ev :=
  if u.status = s then (st, u, true, [])
  else
    let (ok, st') := st.drawDb env
    if ok then
      ({ st' with upload := some { u with status := s } }, { u with status := s },
        true, [.statusSet s true])
    else (st', { u with status := s }, false, [.statusSet s false])

/-- `MultipartUpload.safe_delete` (`s3api/models.py`): delete the row, returning
False when the delete raises. -/
def uploadSafeDelete (env : Env) (st : St) : St × Bool × List Ev :=
  let (ok, st') := st.drawDb env
  if ok then ({ st' with upload := none }, true, [.uploadDelete true])
  else (st', false, [.uploadDelete false])

/-- Modelled from the spec: `HarborManager.get_or_create_obj` (`s3api/harbor.py` is
not under `src/`): "Resolve/create the destination object metadata row for
(bucket, object_key)". Returns (state, row, created flag). -/
def get_or_create_obj (env : Env) (st : St) (key : String) : St × ObjMeta × Bool :=
  match st.obj with
  | some o => (st, o, false)
  | none =>
    let o : ObjMeta :=
      { oid := env.newObjId, na := key, si := 0, md5 := "", share := 0,
        stl := true, upt := env.now }
    ({ st with obj := some o }, o, true)

/-- Modelled from the spec: `HarborManager._pre_reset_upload` (`s3api/harbor.py` is
not under `src/`): "if it pre-exists and is non-empty, reset/truncate its backend
storage before writing (pre-reset step)" — the object's size becomes 0 and its
backend bytes are discarded. -/
def pre_reset_upload (st : St) (o : ObjMeta) : St × ObjMeta :=
  let o' := { o with si := 0 }
  ({ st with obj := some o', objWrites := [] }, o')

/-- Replace the row with the same primary key. -/
def updateRow (rows : List DbPart) (p : DbPart) : List DbPart :=
  rows.map (fun q => if q.pid = p.pid then p else q)

/-- The `for data in generator` loop of `save_part_to_object` (`sub_views.py`): an
empty chunk breaks the loop; each chunk is written to the destination object at the
running offset, retried once on failure, a second failure raises `S3InternalError`;
the whole-object digest accumulates the raw bytes. Returns on success the final
running offset and the accumulated byte stream. -/
def chunkLoop (env : Env) :
    List (List Nat) → St → Nat → List Nat → List Ev →
    St × List Ev × Except S3Err (Nat × List Nat)
  | [], st, offset, acc, tr => (st, tr, .ok (offset, acc))
  | data :: rest, st, offset, acc, tr =>
    if data = [] then (st, tr, .ok (offset, acc))
    else
      let (ok1, st1) := st.drawRados env
      if ok1 then
        chunkLoop env rest
          { st1 with objWrites := st1.objWrites ++ [(offset, data)] }
          (offset + data.length) (acc ++ data) (tr ++ [.chunkWrite offset data.length])
      else
        let (ok2, st2) := st1.drawRados env
        if ok2 then
          chunkLoop env rest
            { st2 with objWrites := st2.objWrites ++ [(offset, data)] }
            (offset + data.length) (acc ++ data) (tr ++ [.chunkWrite offset data.length])
        else (st2, tr, .error .internalErr)

/-- `save_part_to_object` (`sub_views.py`): assign `obj_offset`, `obj_etag`,
`obj_id`, `parts_count` on the in-memory part, stream the part's backend chunks into
the destination object starting at `offset`, then persist exactly those four fields
with `save(update_fields=[obj_offset, obj_etag, obj_id, parts_count])`; a failing
save raises `S3InternalError`. Returns the accumulated whole-object byte stream. -/
def save_part_to_object (env : Env) (st : St) (offset : Nat) (part : DbPart)
    (objEtag : String) (objId partsCount : Nat) (acc : List Nat) :
    St × List Ev × Except S3Err (List Nat) :=
  let mem := { part with
    obj_offset := (offset : Int), obj_etag := objEtag, obj_id := objId,
    parts_count := partsCount }
  let (st1, tr1, r) := chunkLoop env (env.partChunks part.pid) st offset acc []
  match r with
  | .error e => (st1, tr1, .error e)
  | .ok (_, acc1) =>
    let persisted := applyUpdateFields part mem
      [.obj_offset, .obj_etag, .obj_id, .parts_count]
    let (ok, st2) := st1.drawDb env
    if ok then
      ({ st2 with parts := updateRow st2.parts persisted },
        tr1 ++ [.partRowSave part.pid true], .ok acc1)
    else (st2, tr1 ++ [.partRowSave part.pid false], .error .internalErr)

/-- The `for num in complete_numbers` composition loop of
`complete_multipart_upload_handle` (`sub_views.py`): look up each number's part in
the used dict, write it at the cumulative offset, advance the offset by the part's
stored size. A missing key is a Python `KeyError`, an uncaught non-S3 exception the
view maps to `S3InternalError`. Returns (final offset, whole-object byte stream). -/
def composeLoop (env : Env) (used : List (Nat × DbPart)) (objEtag : String)
    (objId partsCount : Nat) :
    List Nat → St → Nat → List Nat → St × List Ev × Except S3Err (Nat × List Nat)
  | [], st, offset, acc => (st, [], .ok (offset, acc))
  | num :: rest, st, offset, acc =>
    match dictLookup num used with
    | none => (st, [], .error .internalErr)
    | some part =>
      let (st1, tr1, r) :=
        save_part_to_object env st offset part objEtag objId partsCount acc
      match r with
      | .error e => (st1, .partWrite num offset part.size :: tr1, .error e)
      | .ok acc1 =>
        let (st2, tr2, r2) := composeLoop env used objEtag objId partsCount rest st1
          (offset + part.size) acc1
        (st2, .partWrite num offset part.size :: (tr1 ++ tr2), r2)

/-- `update_obj_metedata` (`sub_views.py`): write size, whole-object hex digest,
modification time, share code and permanent-share flag onto the object row with one
save; False when the save raises. -/
def update_obj_metedata (env : Env) (st : St) (o : ObjMeta) (size : Nat)
    (hex : String) (share : Nat) : St × List Ev × Bool :=
  let o' := { o with
    si := size, md5 := hex, upt := env.now, share := share, stl := false }
  let (ok, st1) := st.drawDb env
  if ok then ({ st1 with obj := some o' }, [.objMetaSave true], true)
  else (st1, [.objMetaSave false], false)

/-- One part of `clear_parts_cache` (`sub_views.py`): when `is_rm_metadata`, delete
the metadata row with one retry (two failures record the part as failed); then delete
the part's backend bytes with one retry, ignoring the result. -/
def clearOnePart (env : Env) (rm : Bool) (st : St) (p : DbPart) :
    St × List Ev × Bool :=
  let (stA, trA, metaFailed) :=
    if rm then
      let (ok1, st1) := st.drawDb env
      if ok1 then
        ({ st1 with parts := st1.parts.filter (fun q => q.pid ≠ p.pid) },
          [.partMetaDelete p.pid true], false)
      else
        let (ok2, st2) := st1.drawDb env
        if ok2 then
          ({ st2 with parts := st2.parts.filter (fun q => q.pid ≠ p.pid) },
            [.partMetaDelete p.pid true], false)
        else (st2, [.partMetaDelete p.pid false], true)
    else (st, [], false)
  let (ok1, stB) := stA.drawRados env
  if ok1 then
    ({ stB with partBytesDeleted := stB.partBytesDeleted ++ [p.pid] },
      trA ++ [.partBytesDelete p.pid true], metaFailed)
  else
    let (ok2, stC) := stB.drawRados env
    if ok2 then
      ({ stC with partBytesDeleted := stC.partBytesDeleted ++ [p.pid] },
        trA ++ [.partBytesDelete p.pid true], metaFailed)
    else (stC, trA ++ [.partBytesDelete p.pid false], metaFailed)

/-- `clear_parts_cache(parts, is_rm_metadata)` (`sub_views.py`): process each part of
the given list, returning the sublist whose metadata deletion failed twice. -/
def clear_parts_cache (env : Env) (rm : Bool) :
    List DbPart → St → St × List Ev × List DbPart
  | [], st => (st, [], [])
  | p :: rest, st =>
    let (st1, tr1, metaFailed) := clearOnePart env rm st p
    let (st2, tr2, failed) := clear_parts_cache env rm rest st1
    (st2, tr1 ++ tr2, if metaFailed then p :: failed else failed)

/-- The destination-object stage of `complete_multipart_upload_handle`
(`sub_views.py`, `get_or_create_obj` plus the conditional `_pre_reset_upload` on an
existing non-empty object). -/
def resolve_reset_obj (env : Env) (st : St) (key : String) : St × ObjMeta × List Ev :=
  let (st1, o, created) := get_or_create_obj env st key
  if ¬created ∧ o.si ≠ 0 then
    let (s, o') := pre_reset_upload st1 o
    (s, o', [Ev.preReset])
  else (st1, o, [])

/-- `complete_multipart_upload_handle` (`sub_views.py`): resolve or create the
destination object; if it pre-existed non-empty, pre-reset it; validate the parts and
build the composite ETag; compose all used parts in manifest order; persist the final
object metadata (size = final cumulative offset, checksum = whole-object digest of
the streamed bytes, ACL from the upload); delete unused parts (metadata and bytes)
and the used parts' backend bytes, results ignored; delete the upload row with one
retry, degrading to `set_completed` when both deletes fail. Errors propagate to the
caller; the state they leave behind is returned with them. -/
def complete_multipart_upload_handle (env : Env) (st : St) (u : DbUpload)
    (key : String) (manifest : List CPart) (numbers : List Nat) :
    St × List Ev × Except S3Err String :=
  let step := resolve_reset_obj env st key
  let st2 := step.1
  let o1 := step.2.1
  let tr0 := step.2.2
  match get_upload_parts_and_validate env.hETag MULTIPART_UPLOAD_MIN_SIZE
      (st2.parts.filter (fun p => p.upload_id = u.uid)) manifest with
  | .error e => (st2, tr0, .error e)
  | .ok (used, unused, objEtag) =>
    let partsCount := numbers.length
    let (st3, tr1, r) := composeLoop env used objEtag o1.oid partsCount numbers st2 0 []
    match r with
    | .error e => (st3, tr0 ++ tr1, .error e)
    | .ok (finalOffset, bytes) =>
      let (st4, tr2, okMeta) :=
        update_obj_metedata env st3 o1 finalOffset (env.fmd5 bytes) u.obj_perms_code
      if ¬okMeta then (st4, tr0 ++ tr1 ++ tr2, .error .internalErr)
      else
        let (st5, tr3, _) := clear_parts_cache env true unused st4
        let (st6, tr4, _) := clear_parts_cache env false (used.map Prod.snd) st5
        let (st7, ok1, tr5) := uploadSafeDelete env st6
        if ok1 then (st7, tr0 ++ tr1 ++ tr2 ++ tr3 ++ tr4 ++ tr5, .ok objEtag)
        else
          let (st8, ok2, tr6) := uploadSafeDelete env st7
          if ok2 then
            (st8, tr0 ++ tr1 ++ tr2 ++ tr3 ++ tr4 ++ tr5 ++ tr6, .ok objEtag)
          else
            let (st9, _, _, tr7) := setStatus env st8 u .completed
            (st9, tr0 ++ tr1 ++ tr2 ++ tr3 ++ tr4 ++ tr5 ++ tr6 ++ tr7, .ok objEtag)

/-- The `complete_multipart_upload` view (`sub_views.py`), from the parsed request
body on: an empty part list is `S3MalformedXML`; the manifest is shape-validated; a
missing upload row is `S3NoSuchUpload` and a row bound to a different key is
`S3NoSuchUpload` (the `get_upload_and_bucket` checks; the bucket-binding check of
`belong_to_bucket`, also a mutation-free `S3NoSuchUpload`, is not modelled since all
claims run against the upload's own bucket); a Completed upload is deleted (result
ignored) and reported `S3NoSuchUpload`; a Composing upload is rejected; otherwise the
upload is set Composing and the handle runs, any error setting the status back to
Uploading (result ignored) before the error response. -/
def complete_multipart_upload (env : Env) (st : St) (key : String)
    (raw : List RawPart) : St × List Ev × Except S3Err String :=
  if raw = [] then (st, [], .error .malformedXML)
  else
    match handle_validate_complete_parts raw with
    | .error e => (st, [], .error e)
    | .ok (manifest, numbers) =>
      match st.upload with
      | none => (st, [], .error .noSuchUpload)
      | some u =>
        if u.obj_key ≠ key then (st, [], .error .noSuchUpload)
        else if u.status = .completed then
          let (st1, _, tr) := uploadSafeDelete env st
          (st1, tr, .error .noSuchUpload)
        else if u.status = .composing then
          (st, [], .error .completeAlreadyInProgress)
        else
          let (st1, u1, okSet, tr1) := setStatus env st u .composing
          if ¬okSet then (st1, tr1, .error .internalErr)
          else
            let (st2, tr2, r) :=
              complete_multipart_upload_handle env st1 u1 key manifest numbers
            match r with
            | .ok etag => (st2, tr1 ++ tr2, .ok etag)
            | .error e =>
              let (st3, _, _, tr3) := setStatus env st2 u1 .uploading
              (st3, tr1 ++ tr2 ++ tr3, .error e)

/-- `upload_part_handle_save` (`sub_views.py`), after the request body has been
streamed: fetch the (upload, part number) row; when it exists, assign size, checksum,
upload id and the `obj_id = 0` sentinel in memory but persist only
`update_fields=[size, part_md5, upload_id, modified_time]` (a failing save raises
`S3InternalError`); otherwise insert a fresh row with `obj_id = 0` and defaults.
Returns the in-memory part instance whose checksum the response echoes. -/
def upload_part_handle_save (env : Env) (st : St) (u : DbUpload)
    (partNumber : Nat) (newSize : Nat) (newMd5 : String) :
    St × Except S3Err DbPart :=
  match st.parts.find? (fun p => p.upload_id = u.uid ∧ p.part_num = partNumber) with
  | some part =>
    let mem := { part with
      size := newSize, part_md5 := newMd5, upload_id := u.uid, obj_id := 0,
      modified_time := env.now }
    let persisted := applyUpdateFields part mem
      [.size, .part_md5, .upload_id, .modified_time]
    let (ok, st1) := st.drawDb env
    if ok then ({ st1 with parts := updateRow st1.parts persisted }, .ok mem)
    else (st1, .error .internalErr)
  | none =>
    let row : DbPart :=
      { pid := env.newPid, upload_id := u.uid, obj_id := 0, part_num := partNumber,
        size := newSize, obj_offset := -1, part_md5 := newMd5, obj_etag := "",
        parts_count := 0, modified_time := env.now }
    let (ok, st1) := st.drawDb env
    if ok then ({ st1 with parts := st1.parts ++ [row] }, .ok row)
    else (st1, .error .internalErr)

/-- The `upload_part` view (`sub_views.py`), from the Composing gate on (the earlier
content-length and part-number range checks and the body streaming are pure with
respect to the upload and parts rows): a Composing upload is rejected with
`S3CompleteMultipartAlreadyInProgress` before any mutation. -/
def upload_part (env : Env) (st : St) (u : DbUpload) (partNumber : Nat)
    (newSize : Nat) (newMd5 : String) : St × Except S3Err DbPart :=
  if u.status = .composing then (st, .error .completeAlreadyInProgress)
  else upload_part_handle_save env st u partNumber newSize newMd5

/-- The `abort_multipart_upload` view (`sub_views.py`), from `get_upload_and_bucket`
on: Composing is rejected; Completed is deleted (result ignored) and reported
`S3NoSuchUpload`; otherwise the upload's parts with `obj_id = 0` are cleared
(metadata and bytes); when some metadata deletions failed, more than half failing is
an immediate `S3InternalError`, otherwise the failed subset is cleared once more and
any remaining failure is `S3InternalError`; finally the upload row is deleted, a 204
on success and `S3InternalError` when that delete fails. -/
def abort_multipart_upload (env : Env) (st : St) :
    St × List Ev × Except S3Err Unit :=
  match st.upload with
  | none => (st, [], .error .noSuchUpload)
  | some u =>
    if u.status = .composing then (st, [], .error .completeAlreadyInProgress)
    else if u.status = .completed then
      let (st1, _, tr) := uploadSafeDelete env st
      (st1, tr, .error .noSuchUpload)
    else
      let targets := st.parts.filter (fun p => p.upload_id = u.uid ∧ p.obj_id = 0)
      let (st1, tr1, failed) := clear_parts_cache env true targets st
      if failed ≠ [] then
        if failed.length > targets.length / 2 then
          (st1, tr1, .error .internalErr)
        else
          let (st2, tr2, failed2) := clear_parts_cache env true failed st1
          if failed2 ≠ [] then (st2, tr1 ++ tr2, .error .internalErr)
          else
            let (st3, ok, tr3) := uploadSafeDelete env st2
            if ok then (st3, tr1 ++ tr2 ++ tr3, .ok ())
            else (st3, tr1 ++ tr2 ++ tr3, .error .internalErr)
      else
        let (st3, ok, tr3) := uploadSafeDelete env st1
        if ok then (st3, tr1 ++ tr3, .ok ())
        else (st3, tr1 ++ tr3, .error .internalErr)

/-- The live bucket, as `create_multipart_upload` sees it. -/
structure Bucket where
  bid : Nat
  bname : String
  deriving DecidableEq, Repr

/-- The upload-registry state used by `create_multipart_upload`: the
`multipart_upload` table and the database-oracle counter. -/
structure RegSt where
  uploads : List DbUpload
  dbCtr : Nat
  deriving DecidableEq, Repr

/-- Draw the next fallible-database-operation result for the registry. -/
def RegSt.drawDb (st : RegSt) (env : Env) : Bool × RegSt :=
  (env.dbOk st.dbCtr, { st with dbCtr := st.dbCtr + 1 })

/-- The loop of `MultipartUploadManager.get_multipart_upload_delete_invalid`
(`s3api/managers.py`) over the queryset rows: a row whose (bucket name, bucket id)
does not match the live bucket (`belong_to_bucket`) is deleted (`try ... except:
pass`, failure ignored), the rest are collected as valid. -/
def muDeleteInvalidLoop (env : Env) (b : Bucket) :
    List DbUpload → RegSt → RegSt × List DbUpload
  | [], st => (st, [])
  | up :: rest, st =>
    if up.bucket_name = b.bname ∧ up.bucket_id = b.bid then
      let (st', valid) := muDeleteInvalidLoop env b rest st
      (st', up :: valid)
    else
      let (ok, st1) := st.drawDb env
      let st2 :=
        if ok then { st1 with uploads := st1.uploads.filter (fun v => v.uid ≠ up.uid) }
        else st1
      muDeleteInvalidLoop env b rest st2

/-- `get_multipart_upload_delete_invalid(bucket, obj_path)` (`s3api/managers.py`):
queryset = rows with the bucket's name and the object key (`key_md5` is the key's
md5, redundant next to the `obj_key` filter), in table order; invalid rows are lazily
deleted; the first valid row, if any, is returned. -/
def get_multipart_upload_delete_invalid (env : Env) (b : Bucket) (key : String)
    (st : RegSt) : RegSt × Option DbUpload :=
  let qs := st.uploads.filter (fun up => up.bucket_name = b.bname ∧ up.obj_key = key)
  let (st', valid) := muDeleteInvalidLoop env b qs st
  (st', valid.head?)

/-- `update_upload_belong_to_object` (`s3api/managers.py`) with the view's call
(`obj_id` defaulted to 0): set the expiry (given, or now + 30 days), rebind bucket
name/id, `obj_id`, object key and ACL code in memory, and persist exactly the changed
fields (plus `expire_time`); the row's `status` is never in `update_fields`, so a
stored status that differs from the in-memory one is left as stored. A failing save
raises `S3InternalError`. -/
def update_upload_belong_to_object (env : Env) (st : RegSt) (dbRow memUp : DbUpload)
    (b : Bucket) (key : String) (permsCode : Nat) (expire : Option Nat) :
    RegSt × Except S3Err DbUpload :=
  let expireTime := some (expire.getD (env.now + 30 * 86400))
  let mem := { memUp with
    expire_time := expireTime, bucket_name := b.bname, bucket_id := b.bid,
    obj_id := 0, obj_key := key, obj_perms_code := permsCode }
  let persist := fun (v : DbUpload) => { v with
    expire_time := mem.expire_time, bucket_name := mem.bucket_name,
    bucket_id := mem.bucket_id, obj_id := mem.obj_id, obj_key := mem.obj_key,
    obj_perms_code := mem.obj_perms_code }
  let (ok, st1) := st.drawDb env
  let rows := st1.uploads.map (fun v => if v.uid = dbRow.uid then persist v else v)
  if ok then ({ st1 with uploads := rows }, .ok mem)
  else (st1, .error .internalErr)

/-- `create_multipart_upload_task` (`s3api/managers.py`): insert a fresh Upload row
with a new id, Uploading status and default 30-day expiry; a failing save raises
`S3InternalError`. -/
def create_multipart_upload_task (env : Env) (st : RegSt) (b : Bucket)
    (key : String) (permsCode : Nat) (expire : Option Nat) :
    RegSt × Except S3Err DbUpload :=
  let row : DbUpload :=
    { uid := env.newUploadId, bucket_id := b.bid, bucket_name := b.bname,
      obj_id := 0, obj_key := key, status := .uploading,
      obj_perms_code := permsCode,
      expire_time := some (expire.getD (env.now + 30 * 86400)) }
  let (ok, st1) := st.drawDb env
  if ok then ({ st1 with uploads := st1.uploads ++ [row] }, .ok row)
  else (st1, .error .internalErr)

/-- The `create_multipart_upload` view (`sub_views.py`), from the registry lookup
on: fetch (and lazily clean) the key's upload record; when it exists and is
Composing, it is NOT rejected — the rejection is commented out in the source — it is
set back to Uploading instead (result ignored); a Completed record reaches
`upload.safr_delete()` at `sub_views.py:984`, a method `MultipartUpload` does not
define (`safe_delete` is the defined name), so Python raises `AttributeError`, an
uncaught exception surfaced as a 500 crash (`attributeErr` here); any other existing
record is rebound in place to the requested key/ACL/expiry; with no record, a fresh
Upload is inserted. On the normal paths the response carries the upload id. -/
def create_multipart_upload (env : Env) (b : Bucket) (key : String)
    (permsCode : Nat) (expire : Option Nat) (st : RegSt) :
    RegSt × Except S3Err String :=
  let (st1, found) := get_multipart_upload_delete_invalid env b key st
  match found with
  | some u0 =>
    let composingStep :=
      if u0.status = .composing then
        let (ok, stA) := st1.drawDb env
        let rows := stA.uploads.map
          (fun v => if v.uid = u0.uid then { v with status := .uploading } else v)
        if ok then ({ stA with uploads := rows }, { u0 with status := .uploading })
        else (stA, { u0 with status := .uploading })
      else (st1, u0)
    let st2 := composingStep.1
    let u1 := composingStep.2
    if u1.status = .completed then (st2, .error .attributeErr)
    else
      match update_upload_belong_to_object env st2 u0 u1 b key permsCode expire with
      | (st3, .ok mem) => (st3, .ok mem.uid)
      | (st3, .error e) => (st3, .error e)
  | none =>
    match create_multipart_upload_task env st1 b key permsCode expire with
    | (st3, .ok row) => (st3, .ok row.uid)
    | (st3, .error e) => (st3, .error e)

/-- One racing request of the Composing-gate model: its program counter (0 = not yet
fetched, 1 = fetched, 2 = finished), the status snapshot its `get_multipart_upload_by_id`
row fetch returned, and how it finished. -/
structure RProc where
  pc : Nat
  localStatus : UStatus
  proceeded : Bool
  rejected : Bool
  deriving DecidableEq, Repr

/-- Shared state of two concurrent requests against one Upload row: the stored
status and both request states. -/
structure CSt where
  shared : UStatus
  r1 : RProc
  r2 : RProc
  deriving DecidableEq, Repr

/-- One atomic step of one request, against `complete_multipart_upload`'s gate
(`sub_views.py:1203-1215`): step 0 is the row fetch (an atomic read of the stored
status into the request's snapshot); step 1 checks the SNAPSHOT — a Completed or
Composing snapshot is rejected without proceeding, otherwise `set_composing` runs its
unconditional `save(update_fields=[status])` (one atomic write of Composing) and the
request proceeds past the transition. The check and the write are separate atomic
actions with no conditional-update coupling. -/
def stepProc (shared : UStatus) (p : RProc) : UStatus × RProc :=
  match p.pc with
  | 0 => (shared, { p with pc := 1, localStatus := shared })
  | 1 =>
    if p.localStatus = .composing ∨ p.localStatus = .completed then
      (shared, { p with pc := 2, rejected := true })
    else (.composing, { p with pc := 2, proceeded := true })
  | _ => (shared, p)

/-- Run a schedule: `true` steps request 1, `false` steps request 2. -/
def runSched : List Bool → CSt → CSt
  | [], c => c
  | b :: rest, c =>
    if b then
      let (s, r) := stepProc c.shared c.r1
      runSched rest { c with shared := s, r1 := r }
    else
      let (s, r) := stepProc c.shared c.r2
      runSched rest { c with shared := s, r2 := r }

/-- Both requests at their start, the row in the given status. -/
def initCSt (s : UStatus) : CSt :=
  { shared := s,
    r1 := { pc := 0, localStatus := .uploading, proceeded := false, rejected := false },
    r2 := { pc := 0, localStatus := .uploading, proceeded := false, rejected := false } }

/-! Helper functions used by the theorem statements. -/

/-- The part-level write events of a trace: (part number, cumulative offset, stored
size), in order. -/
def partWrites : List Ev → List (Nat × Nat × Nat)
  | [] => []
  | .partWrite n o s :: rest => (n, o, s) :: partWrites rest
  | _ :: rest => partWrites rest

/-- The manifest entry for a part number. -/
def findC (manifest : List CPart) (n : Nat) : Option CPart :=
  manifest.find? (fun c => c.num = n)

/-- The parts of a queryset whose number appears in the manifest (the "used"
candidates), in queryset order. -/
def matchedParts (manifest : List CPart) (parts : List DbPart) : List DbPart :=
  parts.filter (fun p => (findC manifest p.part_num).isSome)

/-- The checks `get_upload_parts_and_validate` applies to one queryset part:
`none` when the part passes (or is unused), otherwise the error raised for it. -/
def partViolation (minSize lastNum : Nat) (manifest : List CPart) (p : DbPart) :
    Option S3Err :=
  match findC manifest p.part_num with
  | none => none
  | some c =>
    if p.size < minSize ∧ p.part_num ≠ lastNum then some .entityTooSmall
    else
      match c.etag with
      | none => some .invalidPart
      | some e => if stripChar '"' e ≠ p.part_md5 then some .invalidPart else none

/-- Fold a part list into an ordered dict keyed by part number. -/
def foldInsert (used : List (Nat × DbPart)) (ps : List DbPart) : List (Nat × DbPart) :=
  ps.foldl (fun d p => dictInsert p.part_num p d) used

/-- The keys of an ordered dict. -/
def dictKeys (d : List (Nat × DbPart)) : List Nat := d.map Prod.fst

/-- The per-part trace the composition loop is expected to produce: each number of
the manifest paired with the cumulative offset and its part's stored size. -/
def expectedTrace (used : List (Nat × DbPart)) : List Nat → Nat → List (Nat × Nat × Nat)
  | [], _ => []
  | n :: rest, off =>
    match dictLookup n used with
    | none => []
    | some p => (n, off, p.size) :: expectedTrace used rest (off + p.size)

/-- A status write that tried to move the upload OUT of Composing (to Uploading on
failure, or to Completed as the degraded terminal marker) and failed. -/
def revertFailed (tr : List Ev) : Prop :=
  Ev.statusSet .uploading false ∈ tr ∨ Ev.statusSet .completed false ∈ tr

/-- How many upload-row deletions failed in a trace. -/
def failedUploadDeletes (tr : List Ev) : Nat :=
  tr.countP (fun e => e = Ev.uploadDelete false)

/-- The byte stream `read_obj_generator` effectively yields for a part row: its
chunks up to (excluding) the first empty chunk, concatenated. -/
def partStream (env : Env) (pid : Nat) : List Nat :=
  ((env.partChunks pid).takeWhile (fun c => ¬ c = [])).flatten

/-- Sum of the sizes recorded in a part-write trace. -/
def sumSizes (tw : List (Nat × Nat × Nat)) : Nat :=
  (tw.map (fun t => t.2.2)).sum

/-- The byte stream of a whole composition: the used parts' streams in manifest
order. -/
def composedStream (env : Env) (used : List (Nat × DbPart)) (numbers : List Nat) :
    List Nat :=
  (numbers.map (fun n =>
    match dictLookup n used with
    | some p => partStream env p.pid
    | none => [])).flatten

/-! Concrete fixtures used by counterexamples and witnesses. -/

/-- A concrete, order-sensitive stand-in for the composite-ETag digest: the
concatenation of the update strings. -/
def joinDigest (l : List String) : String := String.join l

/-- A concrete stand-in for the whole-object byte digest. -/
def lenDigest (l : List Nat) : String := toString l.length

/-- An environment in which every database and rados operation succeeds. -/
def envAllOk : Env :=
  { hETag := joinDigest, fmd5 := lenDigest, partChunks := fun pid => [[pid]],
    radosOk := fun _ => true, dbOk := fun _ => true, now := 7, newObjId := 55,
    newPid := 100, newUploadId := "u-new" }

/-- Everything succeeds except the second database operation (for a completion whose
validation fails, that is the `set_uploading` revert write). -/
def envRevertFail : Env := { envAllOk with dbOk := fun n => n == 0 }

/-- Every rados (backend byte-store) operation fails; database operations succeed. -/
def envRadosFail : Env := { envAllOk with radosOk := fun _ => false }

def upl1 : DbUpload :=
  { uid := "up1", bucket_id := 1, bucket_name := "b", obj_id := 0, obj_key := "k",
    status := .uploading, obj_perms_code := 3, expire_time := none }

def uplComposing : DbUpload := { upl1 with status := .composing }

def uplCompleted : DbUpload := { upl1 with status := .completed }

def partA : DbPart :=
  { pid := 1, upload_id := "up1", obj_id := 0, part_num := 1, size := 6000000,
    obj_offset := -1, part_md5 := "aa", obj_etag := "", parts_count := 0,
    modified_time := 0 }

def partB : DbPart := { partA with pid := 2, part_num := 2, size := 10, part_md5 := "bb" }

def partC : DbPart :=
  { partA with pid := 3, part_num := 3, size := 6000000, part_md5 := "cc" }

/-- Parts table in DESCENDING part-number order: the unordered queryset may return
rows this way. -/
def stDesc : St :=
  { upload := some upl1, parts := [partB, partA], obj := none, objWrites := [],
    partBytesDeleted := [], dbCtr := 0, radosCtr := 0 }

def rawAB : List RawPart := [⟨some 1, some "aa"⟩, ⟨some 2, some "bb"⟩]

/-- The same parts table in ASCENDING part-number order. -/
def stAsc : St :=
  { upload := some upl1, parts := [partA, partB], obj := none, objWrites := [],
    partBytesDeleted := [], dbCtr := 0, radosCtr := 0 }

/-- A pre-existing non-empty destination object (3 bytes already stored). -/
def objPre : ObjMeta :=
  { oid := 9, na := "k", si := 3, md5 := "old", share := 0, stl := true, upt := 1 }

/-- State with the destination object present and non-empty but no stored parts. -/
def stPre : St :=
  { upload := some upl1, parts := [], obj := some objPre,
    objWrites := [(0, [1, 2, 3])], partBytesDeleted := [], dbCtr := 0, radosCtr := 0 }

def rawA : List RawPart := [⟨some 1, some "aa"⟩]

/-- Queryset for the C4 counterexample: part 1 (checksum mismatch in the manifest),
part 2 (undersized and non-final), part 3 (fine). -/
def c4parts : List DbPart := [partA, partB, partC]

def c4manifest : List CPart := [⟨1, some "xx"⟩, ⟨2, some "bb"⟩, ⟨3, some "cc"⟩]

/-- Abort state: one never-composed part of the upload. -/
def stAbort : St :=
  { upload := some upl1, parts := [partB], obj := none, objWrites := [],
    partBytesDeleted := [], dbCtr := 0, radosCtr := 0 }

def bktB : Bucket := { bid := 1, bname := "b" }

def regComposing : RegSt := { uploads := [uplComposing], dbCtr := 0 }

def regCompleted : RegSt := { uploads := [uplCompleted], dbCtr := 0 }

/-- A part row as a finished completion leaves it: composed into object 7. -/
def partPrior : DbPart :=
  { pid := 4, upload_id := "up1", obj_id := 7, part_num := 1, size := 5,
    obj_offset := 0, part_md5 := "old", obj_etag := "\"e-1\"", parts_count := 1,
    modified_time := 2 }

def stC10 : St :=
  { upload := some upl1, parts := [partPrior], obj := none, objWrites := [],
    partBytesDeleted := [], dbCtr := 0, radosCtr := 0 }

/-- State whose upload is mid-completion (Composing). -/
def stComposing : St :=
  { upload := some uplComposing, parts := [], obj := none, objWrites := [],
    partBytesDeleted := [], dbCtr := 0, radosCtr := 0 }

/-! Basic lemmas about the ordered dict. -/

theorem dictLookup_insert (k k' : Nat) (v : DbPart) (d : List (Nat × DbPart)) :
    dictLookup k (dictInsert k' v d) =
      if k' = k then some v else dictLookup k d := by
  induction d with
  | nil =>
    by_cases h : k' = k <;> simp [dictInsert, dictLookup, h]
  | cons hd tl ih =>
    obtain ⟨k₀, v₀⟩ := hd
    by_cases h0 : k₀ = k'
    · subst h0
      by_cases h1 : k₀ = k <;> simp [dictInsert, dictLookup, h1]
    · by_cases h1 : k₀ = k
      · subst h1
        have h2 : ¬ k' = k₀ := fun he => h0 he.symm
        simp [dictInsert, dictLookup, h0, h2]
      · simp [dictInsert, dictLookup, h0, h1, ih]

theorem dictKeys_insert (k : Nat) (v : DbPart) (d : List (Nat × DbPart)) :
    dictKeys (dictInsert k v d) =
      if k ∈ dictKeys d then dictKeys d else dictKeys d ++ [k] := by
  induction d with
  | nil => simp [dictInsert, dictKeys]
  | cons hd tl ih =>
    obtain ⟨k₀, v₀⟩ := hd
    by_cases h0 : k₀ = k
    · subst h0
      simp [dictInsert, dictKeys]
    · have h0' : ¬ k = k₀ := fun he => h0 he.symm
      by_cases h1 : k ∈ dictKeys tl
      · simp only [dictKeys] at h1
        simp [dictInsert, dictKeys, h0, h0', h1] at ih ⊢
        exact ih
      · simp only [dictKeys] at h1
        simp [dictInsert, dictKeys, h0, h0', h1] at ih ⊢
        exact ih

theorem dictKeys_insert_nodup (k : Nat) (v : DbPart) (d : List (Nat × DbPart))
    (h : (dictKeys d).Nodup) : (dictKeys (dictInsert k v d)).Nodup := by
  rw [dictKeys_insert]
  by_cases hm : k ∈ dictKeys d
  · simpa [hm]
  · simpa [hm] using List.Nodup.append h (by simp) (by simpa using hm)

theorem dictLookup_isSome_iff (k : Nat) (d : List (Nat × DbPart)) :
    (dictLookup k d).isSome ↔ k ∈ dictKeys d := by
  induction d with
  | nil => simp [dictLookup, dictKeys]
  | cons hd tl ih =>
    obtain ⟨k₀, v₀⟩ := hd
    by_cases h0 : k₀ = k
    · subst h0
      simp [dictLookup, dictKeys]
    · have h0' : ¬ k = k₀ := fun he => h0 he.symm
      simp [dictLookup, dictKeys, h0, h0', ih]

theorem dictLength_eq_keys_length (d : List (Nat × DbPart)) :
    d.length = (dictKeys d).length := by
  simp [dictKeys]

/-! Characterization of the `get_upload_parts_and_validate` scan. -/

theorem uploadPartsScan_ok_of (minSize lastNum : Nat) (manifest : List CPart)
    (ps : List DbPart) (used : List (Nat × DbPart)) (unused : List DbPart)
    (updates : List String)
    (h : ∀ p ∈ ps, partViolation minSize lastNum manifest p = none) :
    uploadPartsScan minSize lastNum manifest ps used unused updates =
      .ok (foldInsert used (matchedParts manifest ps),
           unused ++ ps.filter (fun p => ¬ (findC manifest p.part_num).isSome),
           updates ++ (matchedParts manifest ps).map DbPart.part_md5) := by
  induction ps generalizing used unused updates with
  | nil => simp [uploadPartsScan, foldInsert, matchedParts]
  | cons p rest ih =>
    have hp := h p (by simp)
    have hrest : ∀ q ∈ rest, partViolation minSize lastNum manifest q = none :=
      fun q hq => h q (by simp [hq])
    cases hfc : findC manifest p.part_num with
    | none =>
      have hfc' := hfc
      simp only [findC] at hfc'
      have hnone : ∀ x ∈ manifest, ¬ x.num = p.part_num := by
        simpa using List.find?_eq_none.mp hfc'
      simp only [uploadPartsScan, hfc']
      rw [ih _ _ _ hrest]
      simp only [matchedParts, findC, List.filter_cons, hfc']
      simp [List.append_assoc]
    | some c =>
      have hfc' := hfc
      simp only [findC] at hfc'
      have hp' : (if p.size < minSize ∧ p.part_num ≠ lastNum then
          some S3Err.entityTooSmall
        else
          match c.etag with
          | none => some S3Err.invalidPart
          | some e => if stripChar '"' e ≠ p.part_md5 then some S3Err.invalidPart
            else none) = none := by
        simpa [partViolation, hfc] using hp
      by_cases hsize : p.size < minSize ∧ p.part_num ≠ lastNum
      · rw [if_pos hsize] at hp'
        simp at hp'
      · rw [if_neg hsize] at hp'
        cases hetag : c.etag with
        | none =>
          simp [hetag] at hp'
        | some e =>
          simp only [hetag] at hp'
          by_cases hstrip : stripChar '"' e ≠ p.part_md5
          · rw [if_pos hstrip] at hp'
            simp at hp'
          · have hcmem : c ∈ manifest := List.mem_of_find?_eq_some hfc'
            have hcnum : c.num = p.part_num := by
              simpa using List.find?_some hfc'
            simp only [uploadPartsScan, hfc', if_neg hsize, hetag, if_neg hstrip]
            rw [ih _ _ _ hrest]
            simp [matchedParts, findC, List.filter_cons, hfc', foldInsert,
              List.append_assoc]
            rw [if_neg (fun hall => (hall c hcmem) hcnum)]

theorem uploadPartsScan_ok_inv (minSize lastNum : Nat) (manifest : List CPart)
    (ps : List DbPart) (used u' : List (Nat × DbPart)) (unused un' : List DbPart)
    (updates upd' : List String)
    (h : uploadPartsScan minSize lastNum manifest ps used unused updates =
      .ok (u', un', upd')) :
    (∀ p ∈ ps, partViolation minSize lastNum manifest p = none) ∧
      u' = foldInsert used (matchedParts manifest ps) ∧
      un' = unused ++ ps.filter (fun p => ¬ (findC manifest p.part_num).isSome) ∧
      upd' = updates ++ (matchedParts manifest ps).map DbPart.part_md5 := by
  induction ps generalizing used unused updates with
  | nil =>
    simp only [uploadPartsScan, Except.ok.injEq, Prod.mk.injEq] at h
    obtain ⟨h1, h2, h3⟩ := h
    simp [← h1, ← h2, ← h3, foldInsert, matchedParts]
  | cons p rest ih =>
    cases hfc : findC manifest p.part_num with
    | none =>
      have hfc' := hfc
      simp only [findC] at hfc'
      have hnone : ∀ x ∈ manifest, ¬ x.num = p.part_num := by
        simpa using List.find?_eq_none.mp hfc'
      simp only [uploadPartsScan, hfc'] at h
      obtain ⟨hv, h1, h2, h3⟩ := ih _ _ _ h
      refine ⟨?_, ?_, ?_, ?_⟩
      · intro q hq
        rcases List.mem_cons.mp hq with hq | hq
        · subst hq
          simp [partViolation, hfc]
        · exact hv q hq
      · simpa [matchedParts, findC, List.filter_cons, hfc'] using h1
      · rw [h2]
        simp only [matchedParts, findC, List.filter_cons, hfc']
        simp [List.append_assoc]
      · simpa [matchedParts, findC, List.filter_cons, hfc'] using h3
    | some c =>
      have hfc' := hfc
      simp only [findC] at hfc'
      simp only [uploadPartsScan, hfc'] at h
      by_cases hsize : p.size < minSize ∧ p.part_num ≠ lastNum
      · rw [if_pos hsize] at h
        exact absurd h (by simp)
      · rw [if_neg hsize] at h
        cases hetag : c.etag with
        | none =>
          simp [hetag] at h
        | some e =>
          simp only [hetag] at h
          by_cases hstrip : stripChar '"' e ≠ p.part_md5
          · rw [if_pos hstrip] at h
            exact absurd h (by simp)
          · rw [if_neg hstrip] at h
            obtain ⟨hv, h1, h2, h3⟩ := ih _ _ _ h
            refine ⟨?_, ?_, ?_, ?_⟩
            · intro q hq
              rcases List.mem_cons.mp hq with hq | hq
              · subst hq
                simp [partViolation, hfc, hsize, hetag, hstrip]
              · exact hv q hq
            · rw [h1]
              simp [matchedParts, findC, List.filter_cons, hfc', foldInsert]
            · have hcmem : c ∈ manifest := List.mem_of_find?_eq_some hfc'
              have hcnum : c.num = p.part_num := by
                simpa using List.find?_some hfc'
              rw [h2]
              simp [matchedParts, findC, List.filter_cons, hfc']
              rw [if_neg (fun hall => (hall c hcmem) hcnum)]
            · rw [h3]
              simp [matchedParts, findC, List.filter_cons, hfc', List.append_assoc]

theorem uploadPartsScan_error_inv (minSize lastNum : Nat) (manifest : List CPart)
    (ps : List DbPart) (used : List (Nat × DbPart)) (unused : List DbPart)
    (updates : List String) (e : S3Err)
    (h : uploadPartsScan minSize lastNum manifest ps used unused updates = .error e) :
    ∃ p ∈ ps, partViolation minSize lastNum manifest p = some e := by
  induction ps generalizing used unused updates with
  | nil => simp [uploadPartsScan] at h
  | cons p rest ih =>
    cases hfc : findC manifest p.part_num with
    | none =>
      have hfc' := hfc
      simp only [findC] at hfc'
      simp only [uploadPartsScan, hfc'] at h
      obtain ⟨q, hq, hv⟩ := ih _ _ _ h
      exact ⟨q, by simp [hq], hv⟩
    | some c =>
      have hfc' := hfc
      simp only [findC] at hfc'
      simp only [uploadPartsScan, hfc'] at h
      by_cases hsize : p.size < minSize ∧ p.part_num ≠ lastNum
      · rw [if_pos hsize] at h
        have he : S3Err.entityTooSmall = e := by simpa using h
        refine ⟨p, by simp, ?_⟩
        simp [partViolation, hfc, if_pos hsize, he]
      · rw [if_neg hsize] at h
        cases hetag : c.etag with
        | none =>
          simp only [hetag] at h
          have he : S3Err.invalidPart = e := by simpa using h
          refine ⟨p, by simp, ?_⟩
          simp [partViolation, hfc, if_neg hsize, hetag, he]
        | some et =>
          simp only [hetag] at h
          by_cases hstrip : stripChar '"' et ≠ p.part_md5
          · rw [if_pos hstrip] at h
            have he : S3Err.invalidPart = e := by simpa using h
            refine ⟨p, by simp, ?_⟩
            simp [partViolation, hfc, if_neg hsize, hetag, if_pos hstrip, he]
          · rw [if_neg hstrip] at h
            obtain ⟨q, hq, hv⟩ := ih _ _ _ h
            exact ⟨q, by simp [hq], hv⟩

/-! Characterization of `get_upload_parts_and_validate` and of the manifest-shape
validation. -/

theorem validate_ok_inv (hE : List String → String) (minSize : Nat)
    (parts : List DbPart) (manifest : List CPart)
    (used : List (Nat × DbPart)) (unused : List DbPart) (etagStr : String)
    (h : get_upload_parts_and_validate hE minSize parts manifest =
      .ok (used, unused, etagStr)) :
    (∀ p ∈ parts,
      partViolation minSize (((manifest.map CPart.num).getLast?).getD 0) manifest p
        = none) ∧
      used = foldInsert [] (matchedParts manifest parts) ∧
      unused = parts.filter (fun p => ¬ (findC manifest p.part_num).isSome) ∧
      used.length = manifest.length ∧
      etagStr = "\"" ++ hE ((matchedParts manifest parts).map DbPart.part_md5) ++
        "-" ++ toString manifest.length ++ "\"" := by
  simp only [get_upload_parts_and_validate] at h
  cases hscan : uploadPartsScan minSize (((manifest.map CPart.num).getLast?).getD 0)
      manifest parts [] [] [] with
  | error e => rw [hscan] at h; simp at h
  | ok res =>
    obtain ⟨u0, un0, upd0⟩ := res
    rw [hscan] at h
    simp only at h
    by_cases hlen : u0.length ≠ manifest.length
    · rw [if_pos hlen] at h
      simp at h
    · rw [if_neg hlen] at h
      push_neg at hlen
      obtain ⟨hv, h1, h2, h3⟩ := uploadPartsScan_ok_inv _ _ _ _ _ _ _ _ _ _ hscan
      simp only [Except.ok.injEq, Prod.mk.injEq] at h
      obtain ⟨hu, hun, hetag⟩ := h
      subst hu hun
      refine ⟨hv, by simpa using h1, by simpa using h2, hlen, ?_⟩
      rw [← hetag, hlen]
      simp [h3]

theorem validate_error_inv (hE : List String → String) (minSize : Nat)
    (parts : List DbPart) (manifest : List CPart) (e : S3Err)
    (h : get_upload_parts_and_validate hE minSize parts manifest = .error e) :
    (∃ p ∈ parts,
      partViolation minSize (((manifest.map CPart.num).getLast?).getD 0) manifest p
        = some e) ∨
      (e = .invalidPart ∧
        (foldInsert [] (matchedParts manifest parts)).length ≠ manifest.length) := by
  simp only [get_upload_parts_and_validate] at h
  cases hscan : uploadPartsScan minSize (((manifest.map CPart.num).getLast?).getD 0)
      manifest parts [] [] [] with
  | error e' =>
    rw [hscan] at h
    simp only [Except.error.injEq] at h
    subst h
    exact .inl (uploadPartsScan_error_inv _ _ _ _ _ _ _ _ hscan)
  | ok res =>
    obtain ⟨u0, un0, upd0⟩ := res
    rw [hscan] at h
    simp only at h
    by_cases hlen : u0.length ≠ manifest.length
    · rw [if_pos hlen] at h
      simp only [Except.error.injEq] at h
      obtain ⟨_, h1, _, _⟩ := uploadPartsScan_ok_inv _ _ _ _ _ _ _ _ _ _ hscan
      right
      constructor
      · exact h.symm
      · rw [← h1]
        simpa using hlen
    · rw [if_neg hlen] at h
      simp at h

theorem validateCompletePartsLoop_ok_inv (preNum : Nat) (raw : List RawPart)
    (manifest : List CPart) (numbers : List Nat)
    (h : validateCompletePartsLoop preNum raw = .ok (manifest, numbers)) :
    numbers = manifest.map CPart.num ∧
      List.Chain (· < ·) preNum numbers ∧
      ∀ c ∈ manifest, (∃ e, c.etag = some e) ∧ 1 ≤ c.num ∧ c.num ≤ 10000 := by
  induction raw generalizing preNum manifest numbers with
  | nil =>
    simp only [validateCompletePartsLoop, Except.ok.injEq, Prod.mk.injEq] at h
    obtain ⟨h1, h2⟩ := h
    simp [← h1, ← h2]
  | cons p rest ih =>
    simp only [validateCompletePartsLoop] at h
    cases hpn : p.partNumber with
    | none => rw [hpn] at h; simp at h
    | some n =>
      cases hpe : p.eTag with
      | none => rw [hpn, hpe] at h; simp at h
      | some e =>
        rw [hpn, hpe] at h
        simp only at h
        by_cases hrange : 1 ≤ n ∧ n ≤ 10000
        · rw [if_pos hrange] at h
          by_cases hord : n ≤ preNum
          · rw [if_pos hord] at h
            simp at h
          · rw [if_neg hord] at h
            cases hrec : validateCompletePartsLoop n rest with
            | error err => rw [hrec] at h; simp at h
            | ok res =>
              obtain ⟨ps, ns⟩ := res
              rw [hrec] at h
              simp only [Except.ok.injEq, Prod.mk.injEq] at h
              obtain ⟨h1, h2⟩ := h
              obtain ⟨ih1, ih2, ih3⟩ := ih n ps ns hrec
              subst h1 h2
              refine ⟨by simp [ih1], ?_, ?_⟩
              · exact List.Chain.cons (Nat.lt_of_not_le hord) ih2
              · intro c hc
                rcases List.mem_cons.mp hc with hc | hc
                · subst hc
                  exact ⟨⟨e, rfl⟩, hrange.1, hrange.2⟩
                · exact ih3 c hc
        · rw [if_neg hrange] at h
          simp at h

theorem hvcp_ok_inv (raw : List RawPart) (manifest : List CPart)
    (numbers : List Nat)
    (h : handle_validate_complete_parts raw = .ok (manifest, numbers)) :
    numbers = manifest.map CPart.num ∧
      numbers.Chain' (· < ·) ∧
      ∀ c ∈ manifest, (∃ e, c.etag = some e) ∧ 1 ≤ c.num ∧ c.num ≤ 10000 := by
  obtain ⟨h1, h2, h3⟩ := validateCompletePartsLoop_ok_inv 0 raw manifest numbers h
  exact ⟨h1, List.Chain'.tail (l := 0 :: numbers) h2, h3⟩

/-! Lemmas about `foldInsert`: keys, lookups and length. -/

theorem dictKeys_foldInsert_nodup (l : List DbPart) (d : List (Nat × DbPart))
    (hd : (dictKeys d).Nodup) : (dictKeys (foldInsert d l)).Nodup := by
  induction l generalizing d with
  | nil => simpa [foldInsert]
  | cons p rest ih =>
    have : foldInsert d (p :: rest) = foldInsert (dictInsert p.part_num p d) rest := rfl
    rw [this]
    exact ih _ (dictKeys_insert_nodup _ _ _ hd)

theorem mem_dictKeys_foldInsert (l : List DbPart) (d : List (Nat × DbPart))
    (k : Nat) :
    k ∈ dictKeys (foldInsert d l) ↔ k ∈ dictKeys d ∨ ∃ p ∈ l, p.part_num = k := by
  induction l generalizing d with
  | nil => simp [foldInsert]
  | cons p rest ih =>
    have hstep : foldInsert d (p :: rest) = foldInsert (dictInsert p.part_num p d) rest := rfl
    rw [hstep, ih]
    rw [dictKeys_insert]
    by_cases hm : p.part_num ∈ dictKeys d
    · rw [if_pos hm]
      constructor
      · rintro (h | h)
        · exact .inl h
        · obtain ⟨q, hq, hqk⟩ := h
          exact .inr ⟨q, by simp [hq], hqk⟩
      · rintro (h | ⟨q, hq, hqk⟩)
        · exact .inl h
        · rcases List.mem_cons.mp hq with hq | hq
          · subst hq
            exact .inl (hqk ▸ hm)
          · exact .inr ⟨q, hq, hqk⟩
    · rw [if_neg hm]
      constructor
      · rintro (h | h)
        · rcases List.mem_append.mp h with h | h
          · exact .inl h
          · refine .inr ⟨p, by simp, ?_⟩
            have : k = p.part_num := by simpa using h
            exact this.symm
        · obtain ⟨q, hq, hqk⟩ := h
          exact .inr ⟨q, by simp [hq], hqk⟩
      · rintro (h | ⟨q, hq, hqk⟩)
        · exact .inl (List.mem_append.mpr (.inl h))
        · rcases List.mem_cons.mp hq with hq | hq
          · subst hq
            exact .inl (List.mem_append.mpr (.inr (by simp [hqk])))
          · exact .inr ⟨q, hq, hqk⟩

theorem dictLookup_foldInsert (l : List DbPart) (d : List (Nat × DbPart)) (k : Nat) :
    dictLookup k (foldInsert d l) = dictLookup k d ∨
      ∃ p ∈ l, dictLookup k (foldInsert d l) = some p ∧ p.part_num = k := by
  induction l generalizing d with
  | nil => exact .inl rfl
  | cons p rest ih =>
    have hstep : foldInsert d (p :: rest) = foldInsert (dictInsert p.part_num p d) rest := rfl
    rw [hstep]
    rcases ih (dictInsert p.part_num p d) with h | ⟨q, hq, hlk, hqk⟩
    · rw [h, dictLookup_insert]
      by_cases he : p.part_num = k
      · exact .inr ⟨p, by simp, by simp [he], he⟩
      · rw [if_neg he]
        exact .inl rfl
    · exact .inr ⟨q, by simp [hq], hlk, hqk⟩

/-- A used-count mismatch means some manifest part number has no stored part:
the used dict's keys are distinct and drawn from the manifest numbers, so a length
difference forces a manifest number outside the keys, i.e. a number no queryset part
carries. -/
theorem missing_num_of_count_mismatch (manifest : List CPart) (parts : List DbPart)
    (hnodup : (manifest.map CPart.num).Nodup)
    (hmis : (foldInsert [] (matchedParts manifest parts)).length ≠ manifest.length) :
    ∃ n ∈ manifest.map CPart.num, ∀ p ∈ parts, p.part_num ≠ n := by
  by_contra hall
  push_neg at hall
  apply hmis
  have hkeysNodup : (dictKeys (foldInsert [] (matchedParts manifest parts))).Nodup :=
    dictKeys_foldInsert_nodup _ _ (by simp [dictKeys])
  have hkeysSub : dictKeys (foldInsert [] (matchedParts manifest parts)) ⊆
      manifest.map CPart.num := by
    intro k hk
    rcases (mem_dictKeys_foldInsert _ _ _).mp hk with h | ⟨p, hp, hpk⟩
    · simp [dictKeys] at h
    · have hps : (findC manifest p.part_num).isSome := by
        have := List.of_mem_filter hp
        simpa [matchedParts] using this
      obtain ⟨c, hc⟩ := Option.isSome_iff_exists.mp hps
      have hcm : c ∈ manifest := List.mem_of_find?_eq_some hc
      have hcn : c.num = p.part_num := by
        have := List.find?_some hc
        simpa using this
      subst hpk
      exact List.mem_map.mpr ⟨c, hcm, hcn⟩
  have hnumsSub : manifest.map CPart.num ⊆
      dictKeys (foldInsert [] (matchedParts manifest parts)) := by
    intro n hn
    obtain ⟨p, hp, hpn⟩ := hall n hn
    have hmem : p ∈ matchedParts manifest parts := by
      have hsome : (findC manifest p.part_num).isSome := by
        rw [hpn]
        simp only [findC, List.find?_isSome]
        obtain ⟨c, hcm, hcn⟩ := List.mem_map.mp hn
        exact ⟨c, hcm, by simp [hcn]⟩
      exact List.mem_filter.mpr ⟨hp, by simpa [matchedParts] using hsome⟩
    exact (mem_dictKeys_foldInsert _ _ _).mpr (.inr ⟨p, hmem, hpn⟩)
  have h1 := (List.subperm_of_subset hkeysNodup hkeysSub).length_le
  have h2 := (List.subperm_of_subset hnodup hnumsSub).length_le
  rw [List.length_map] at h1 h2
  rw [dictLength_eq_keys_length]
  exact Nat.le_antisymm h1 h2

/-- When validation succeeds, every manifest number resolves in the used dict to a
stored part carrying that number. -/
theorem dictLookup_used_of_validate_ok (hE : List String → String) (minSize : Nat)
    (parts : List DbPart) (manifest : List CPart)
    (used : List (Nat × DbPart)) (unused : List DbPart) (etagStr : String)
    (hnodup : (manifest.map CPart.num).Nodup)
    (h : get_upload_parts_and_validate hE minSize parts manifest =
      .ok (used, unused, etagStr)) :
    ∀ n ∈ manifest.map CPart.num,
      ∃ p ∈ matchedParts manifest parts, dictLookup n used = some p ∧
        p.part_num = n := by
  obtain ⟨hv, hu, hun, hlen, hetag⟩ := validate_ok_inv _ _ _ _ _ _ _ h
  intro n hn
  have hmem : n ∈ dictKeys (foldInsert [] (matchedParts manifest parts)) := by
    by_contra hnot
    have hmiss : ∃ m ∈ manifest.map CPart.num, ∀ p ∈ parts, p.part_num ≠ m := by
      refine ⟨n, hn, fun p hp hpn => hnot ?_⟩
      refine (mem_dictKeys_foldInsert _ _ _).mpr (.inr ⟨p, ?_, hpn⟩)
      have hsome : (findC manifest p.part_num).isSome := by
        rw [hpn]
        simp only [findC, List.find?_isSome]
        obtain ⟨c, hcm, hcn⟩ := List.mem_map.mp hn
        exact ⟨c, hcm, by simp [hcn]⟩
      exact List.mem_filter.mpr ⟨hp, by simpa [matchedParts] using hsome⟩
    -- but the used count equals the manifest count, so no number is missing
    obtain ⟨m, hm, hmnone⟩ := hmiss
    -- reuse the count argument: n itself is missing from the keys while every key is
    -- a manifest number, contradicting the length equality
    have hkeysNodup : (dictKeys (foldInsert [] (matchedParts manifest parts))).Nodup :=
      dictKeys_foldInsert_nodup _ _ (by simp [dictKeys])
    have hkeysSub : dictKeys (foldInsert [] (matchedParts manifest parts)) ⊆
        manifest.map CPart.num := by
      intro k hk
      rcases (mem_dictKeys_foldInsert _ _ _).mp hk with h' | ⟨p, hp, hpk⟩
      · simp [dictKeys] at h'
      · have hps : (findC manifest p.part_num).isSome := by
          have := List.of_mem_filter hp
          simpa [matchedParts] using this
        obtain ⟨c, hc⟩ := Option.isSome_iff_exists.mp hps
        have hcm : c ∈ manifest := List.mem_of_find?_eq_some hc
        have hcn : c.num = p.part_num := by
          have := List.find?_some hc
          simpa using this
        subst hpk
        exact List.mem_map.mpr ⟨c, hcm, hcn⟩
    have hsubset : dictKeys (foldInsert [] (matchedParts manifest parts)) ⊆
        (manifest.map CPart.num).erase n := by
      intro k hk
      have hne : k ≠ n := fun he => hnot (by rw [← he]; exact hk)
      exact (List.mem_erase_of_ne hne).mpr (hkeysSub hk)
    have hlt := (List.subperm_of_subset hkeysNodup hsubset).length_le
    have herase : ((manifest.map CPart.num).erase n).length =
        (manifest.map CPart.num).length - 1 := List.length_erase_of_mem hn
    rw [herase] at hlt
    rw [hu] at hlen
    rw [dictLength_eq_keys_length] at hlen
    have hpos : 0 < (manifest.map CPart.num).length := List.length_pos_of_mem hn
    have hml : (manifest.map CPart.num).length = manifest.length := by
      simp
    omega
  rcases dictLookup_foldInsert (matchedParts manifest parts) [] n with h' |
      ⟨p, hp, hlk, hpk⟩
  · exfalso
    have hsome := (dictLookup_isSome_iff n _).mpr hmem
    rw [h'] at hsome
    simp [dictLookup] at hsome
  · exact ⟨p, hp, by rw [hu]; exact hlk, hpk⟩

/-! Stage lemmas for the completion pipeline: frames (what each stage leaves
untouched) and success characterizations. -/

theorem partWrites_append (a b : List Ev) :
    partWrites (a ++ b) = partWrites a ++ partWrites b := by
  induction a with
  | nil => simp [partWrites]
  | cons e rest ih =>
    cases e <;> simp [partWrites, ih]

theorem chunkLoop_frame (env : Env) (chunks : List (List Nat)) :
    ∀ st offset acc tr,
      ((chunkLoop env chunks st offset acc tr).1.upload = st.upload ∧
        (chunkLoop env chunks st offset acc tr).1.parts = st.parts ∧
        (chunkLoop env chunks st offset acc tr).1.obj = st.obj) ∧
        partWrites (chunkLoop env chunks st offset acc tr).2.1 = partWrites tr := by
  induction chunks with
  | nil => intro st offset acc tr; simp [chunkLoop]
  | cons data rest ih =>
    intro st offset acc tr
    by_cases hd : data = []
    · simp [chunkLoop, hd]
    · simp only [chunkLoop, if_neg hd, St.drawRados]
      cases h1 : env.radosOk st.radosCtr with
      | true =>
        simp only [h1, if_true]
        refine ⟨(ih _ _ _ _).1, ?_⟩
        rw [(ih _ _ _ _).2, partWrites_append]
        simp [partWrites]
      | false =>
        cases h2 : env.radosOk (st.radosCtr + 1) with
        | true =>
          simp only [h1, h2, if_true, Bool.false_eq_true, if_false]
          refine ⟨(ih _ _ _ _).1, ?_⟩
          rw [(ih _ _ _ _).2, partWrites_append]
          simp [partWrites]
        | false =>
          simp [h1, h2]

theorem chunkLoop_ok_acc (env : Env) (chunks : List (List Nat)) :
    ∀ st offset acc tr st' tr' off' acc',
      chunkLoop env chunks st offset acc tr = (st', tr', .ok (off', acc')) →
      acc' = acc ++ (chunks.takeWhile (fun c => ¬ c = [])).flatten := by
  induction chunks with
  | nil =>
    intro st offset acc tr st' tr' off' acc' h
    simp only [chunkLoop, Prod.mk.injEq, Except.ok.injEq] at h
    rw [← h.2.2.2]
    simp
  | cons data rest ih =>
    intro st offset acc tr st' tr' off' acc' h
    by_cases hd : data = []
    · simp only [chunkLoop, if_pos hd, Prod.mk.injEq, Except.ok.injEq] at h
      rw [← h.2.2.2]
      simp [hd, List.takeWhile_cons]
    · simp only [chunkLoop, if_neg hd, St.drawRados] at h
      cases h1 : env.radosOk st.radosCtr with
      | true =>
        rw [h1] at h
        simp only [if_true] at h
        have := ih _ _ _ _ _ _ _ _ h
        simpa [List.takeWhile_cons, hd] using this
      | false =>
        rw [h1] at h
        simp only [Bool.false_eq_true, if_false] at h
        cases h2 : env.radosOk (st.radosCtr + 1) with
        | true =>
          rw [h2] at h
          simp only [if_true] at h
          have := ih _ _ _ _ _ _ _ _ h
          simpa [List.takeWhile_cons, hd] using this
        | false =>
          rw [h2] at h
          simp at h

theorem save_part_frame (env : Env) (st : St) (offset : Nat) (part : DbPart)
    (objEtag : String) (objId partsCount : Nat) (acc : List Nat) :
    (save_part_to_object env st offset part objEtag objId partsCount acc).1.upload
        = st.upload ∧
      (save_part_to_object env st offset part objEtag objId partsCount acc).1.obj
        = st.obj ∧
      partWrites
        (save_part_to_object env st offset part objEtag objId partsCount acc).2.1
        = [] := by
  simp only [save_part_to_object]
  obtain ⟨⟨hup, hparts, hobj⟩, htr⟩ :=
    chunkLoop_frame env (env.partChunks part.pid) st offset acc []
  simp only [partWrites] at htr
  cases hc : chunkLoop env (env.partChunks part.pid) st offset acc [] with
  | mk st1 rest =>
    obtain ⟨tr1, r⟩ := rest
    rw [hc] at hup hparts hobj htr
    simp only at hup hparts hobj htr
    cases r with
    | error e => exact ⟨hup, hobj, htr⟩
    | ok v =>
      obtain ⟨o, acc1⟩ := v
      simp only [St.drawDb]
      split
      · exact ⟨hup, hobj, by simp [partWrites_append, partWrites, htr]⟩
      · exact ⟨hup, hobj, by simp [partWrites_append, partWrites, htr]⟩

theorem save_part_ok_inv (env : Env) (st : St) (offset : Nat) (part : DbPart)
    (objEtag : String) (objId partsCount : Nat) (acc : List Nat)
    (st' : St) (tr : List Ev) (acc' : List Nat)
    (h : save_part_to_object env st offset part objEtag objId partsCount acc =
      (st', tr, .ok acc')) :
    acc' = acc ++ partStream env part.pid := by
  simp only [save_part_to_object] at h
  cases hc : chunkLoop env (env.partChunks part.pid) st offset acc [] with
  | mk st1 rest =>
    obtain ⟨tr1, r⟩ := rest
    rw [hc] at h
    simp only at h
    cases r with
    | error e => simp at h
    | ok v =>
      obtain ⟨o, acc1⟩ := v
      have hacc1 := chunkLoop_ok_acc env (env.partChunks part.pid) _ _ _ _ _ _ _ _ hc
      simp only [St.drawDb] at h
      split at h
      · simp only [Prod.mk.injEq, Except.ok.injEq] at h
        rw [← h.2.2]
        simpa [partStream] using hacc1
      · simp at h

theorem sumSizes_cons (t : Nat × Nat × Nat) (l : List (Nat × Nat × Nat)) :
    sumSizes (t :: l) = t.2.2 + sumSizes l := by
  simp [sumSizes]

theorem composeLoop_frame (env : Env) (used : List (Nat × DbPart))
    (objEtag : String) (objId partsCount : Nat) :
    ∀ numbers st offset acc,
      (composeLoop env used objEtag objId partsCount numbers st offset acc).1.upload
          = st.upload ∧
        (composeLoop env used objEtag objId partsCount numbers st offset acc).1.obj
          = st.obj := by
  intro numbers
  induction numbers with
  | nil => intro st offset acc; simp [composeLoop]
  | cons n rest ih =>
    intro st offset acc
    simp only [composeLoop]
    cases hlk : dictLookup n used with
    | none => simp
    | some part =>
      obtain ⟨hu, ho, htr⟩ :=
        save_part_frame env st offset part objEtag objId partsCount acc
      cases hsp : save_part_to_object env st offset part objEtag objId partsCount acc
        with
      | mk st1 rest2 =>
        obtain ⟨tr1, r⟩ := rest2
        rw [hsp] at hu ho
        simp only at hu ho
        dsimp only
        rw [hsp]
        cases r with
        | error e => simpa using ⟨hu, ho⟩
        | ok acc1 =>
          have hrec := ih st1 (offset + part.size) acc1
          cases hcl : composeLoop env used objEtag objId partsCount rest st1
              (offset + part.size) acc1 with
          | mk st2 rest3 =>
            obtain ⟨tr2, r2⟩ := rest3
            rw [hcl] at hrec
            simp only at hrec
            dsimp only
            rw [hcl]
            simpa using ⟨hrec.1.trans hu, hrec.2.trans ho⟩

theorem composeLoop_ok_inv (env : Env) (used : List (Nat × DbPart))
    (objEtag : String) (objId partsCount : Nat) :
    ∀ numbers st offset acc st' tr off' acc',
      composeLoop env used objEtag objId partsCount numbers st offset acc =
        (st', tr, .ok (off', acc')) →
      partWrites tr = expectedTrace used numbers offset ∧
        off' = offset + sumSizes (expectedTrace used numbers offset) ∧
        acc' = acc ++ composedStream env used numbers := by
  intro numbers
  induction numbers with
  | nil =>
    intro st offset acc st' tr off' acc' h
    simp only [composeLoop, Prod.mk.injEq, Except.ok.injEq] at h
    obtain ⟨-, h2, h3, h4⟩ := h
    simp [← h2, ← h3, ← h4, expectedTrace, sumSizes, composedStream, partWrites]
  | cons n rest ih =>
    intro st offset acc st' tr off' acc' h
    simp only [composeLoop] at h
    cases hlk : dictLookup n used with
    | none =>
      rw [hlk] at h
      simp at h
    | some part =>
      rw [hlk] at h
      simp only at h
      obtain ⟨hu, ho, htr1⟩ :=
        save_part_frame env st offset part objEtag objId partsCount acc
      cases hsp : save_part_to_object env st offset part objEtag objId partsCount acc
        with
      | mk st1 rest2 =>
        obtain ⟨tr1, r⟩ := rest2
        rw [hsp] at h htr1
        simp only at h htr1
        cases r with
        | error e => simp at h
        | ok acc1 =>
          have hacc1 := save_part_ok_inv env st offset part objEtag objId partsCount
            acc st1 tr1 acc1 hsp
          dsimp only at h
          cases hcl : composeLoop env used objEtag objId partsCount rest st1
              (offset + part.size) acc1 with
          | mk st2 rest3 =>
            obtain ⟨tr2, r2⟩ := rest3
            rw [hcl] at h
            simp only [Prod.mk.injEq] at h
            obtain ⟨hst, htr, hr2⟩ := h
            cases r2 with
            | error e => simp at hr2
            | ok v2 =>
              obtain ⟨offEnd, accEnd⟩ := v2
              simp only [Except.ok.injEq, Prod.mk.injEq] at hr2
              obtain ⟨hoff, hacc⟩ := hr2
              obtain ⟨ih1, ih2, ih3⟩ := ih st1 (offset + part.size) acc1 st2 tr2
                offEnd accEnd hcl
              refine ⟨?_, ?_, ?_⟩
              · rw [← htr]
                simp only [partWrites, partWrites_append, htr1, ih1]
                simp [expectedTrace, hlk]
              · rw [← hoff, ih2]
                simp only [expectedTrace, hlk, sumSizes_cons]
                omega
              · rw [← hacc, ih3, hacc1]
                simp [composedStream, hlk, List.append_assoc]

theorem expectedTrace_map_fst (used : List (Nat × DbPart)) :
    ∀ ns off, (∀ n ∈ ns, (dictLookup n used).isSome) →
      (expectedTrace used ns off).map (fun t => t.1) = ns := by
  intro ns
  induction ns with
  | nil => intro off h; simp [expectedTrace]
  | cons n rest ih =>
    intro off h
    cases hlk : dictLookup n used with
    | none =>
      have := h n (by simp)
      rw [hlk] at this
      simp at this
    | some part =>
      simp only [expectedTrace, hlk]
      simp only [List.map_cons]
      rw [ih _ (fun m hm => h m (by simp [hm]))]

theorem expectedTrace_offsets (used : List (Nat × DbPart)) :
    ∀ ns off i t, (expectedTrace used ns off)[i]? = some t →
      t.2.1 = off + sumSizes ((expectedTrace used ns off).take i) := by
  intro ns
  induction ns with
  | nil => intro off i t h; simp [expectedTrace] at h
  | cons n rest ih =>
    intro off i t h
    cases hlk : dictLookup n used with
    | none =>
      simp only [expectedTrace, hlk] at h
      simp at h
    | some part =>
      simp only [expectedTrace, hlk] at h ⊢
      cases i with
      | zero =>
        simp only [List.getElem?_cons_zero, Option.some.injEq] at h
        subst h
        simp [sumSizes]
      | succ j =>
        simp only [List.getElem?_cons_succ] at h
        have := ih (off + part.size) j t h
        simp only [List.take_succ_cons, sumSizes_cons]
        omega

theorem setStatus_frame (env : Env) (st : St) (u : DbUpload) (s : UStatus) :
    (setStatus env st u s).1.parts = st.parts ∧
      (setStatus env st u s).1.obj = st.obj ∧
      (setStatus env st u s).1.objWrites = st.objWrites ∧
      partWrites (setStatus env st u s).2.2.2 = [] := by
  unfold setStatus St.drawDb
  dsimp only
  repeat' split
  all_goals simp [partWrites]

theorem uploadSafeDelete_frame (env : Env) (st : St) :
    (uploadSafeDelete env st).1.parts = st.parts ∧
      (uploadSafeDelete env st).1.obj = st.obj ∧
      (uploadSafeDelete env st).1.objWrites = st.objWrites ∧
      partWrites (uploadSafeDelete env st).2.2 = [] := by
  unfold uploadSafeDelete St.drawDb
  dsimp only
  repeat' split
  all_goals simp [partWrites]

theorem update_obj_metedata_frame (env : Env) (st : St) (o : ObjMeta) (size : Nat)
    (hex : String) (share : Nat) :
    (update_obj_metedata env st o size hex share).1.parts = st.parts ∧
      (update_obj_metedata env st o size hex share).1.upload = st.upload ∧
      partWrites (update_obj_metedata env st o size hex share).2.1 = [] := by
  unfold update_obj_metedata St.drawDb
  dsimp only
  repeat' split
  all_goals simp [partWrites]

theorem clearOnePart_frame (env : Env) (rm : Bool) (st : St) (p : DbPart) :
    (clearOnePart env rm st p).1.upload = st.upload ∧
      (clearOnePart env rm st p).1.obj = st.obj ∧
      (clearOnePart env rm st p).1.objWrites = st.objWrites ∧
      partWrites (clearOnePart env rm st p).2.1 = [] := by
  unfold clearOnePart St.drawDb St.drawRados
  dsimp only
  repeat' split
  all_goals simp [partWrites, partWrites_append]

theorem clear_parts_cache_frame (env : Env) (rm : Bool) :
    ∀ ps st,
      (clear_parts_cache env rm ps st).1.upload = st.upload ∧
        (clear_parts_cache env rm ps st).1.obj = st.obj ∧
        (clear_parts_cache env rm ps st).1.objWrites = st.objWrites ∧
        partWrites (clear_parts_cache env rm ps st).2.1 = [] := by
  intro ps
  induction ps with
  | nil => intro st; simp [clear_parts_cache, partWrites]
  | cons p rest ih =>
    intro st
    simp only [clear_parts_cache]
    obtain ⟨h1, h2, h3, h4⟩ := clearOnePart_frame env rm st p
    cases hc : clearOnePart env rm st p with
    | mk st1 rest2 =>
      obtain ⟨tr1, mf⟩ := rest2
      rw [hc] at h1 h2 h3 h4
      simp only at h1 h2 h3 h4
      obtain ⟨g1, g2, g3, g4⟩ := ih st1
      cases hrec : clear_parts_cache env rm rest st1 with
      | mk st2 rest3 =>
        obtain ⟨tr2, failed⟩ := rest3
        rw [hrec] at g1 g2 g3 g4
        simp only at g1 g2 g3 g4
        refine ⟨g1.trans h1, g2.trans h2, g3.trans h3, ?_⟩
        simp [partWrites_append, h4, g4]

theorem partViolation_kinds (minSize lastNum : Nat) (manifest : List CPart)
    (p : DbPart) (e : S3Err)
    (h : partViolation minSize lastNum manifest p = some e) :
    e = .entityTooSmall ∨ e = .invalidPart := by
  unfold partViolation at h
  repeat' split at h
  all_goals simp_all

theorem validate_err_kinds (hE : List String → String) (minSize : Nat)
    (parts : List DbPart) (manifest : List CPart) (e : S3Err)
    (h : get_upload_parts_and_validate hE minSize parts manifest = .error e) :
    e = .entityTooSmall ∨ e = .invalidPart := by
  rcases validate_error_inv hE minSize parts manifest e h with ⟨p, _, hv⟩ | ⟨he, -⟩
  · exact partViolation_kinds _ _ _ _ _ hv
  · exact .inr he

/-- The destination-object resolution and pre-reset step of
`complete_multipart_upload_handle` never touches the upload row or the parts table,
so a part-validation failure surfaces with both exactly as they were. -/
theorem resolve_reset_obj_frame (env : Env) (st : St) (key : String) :
    (resolve_reset_obj env st key).1.parts = st.parts ∧
      (resolve_reset_obj env st key).1.upload = st.upload ∧
      partWrites (resolve_reset_obj env st key).2.2 = [] := by
  unfold resolve_reset_obj get_or_create_obj pre_reset_upload
  cases hobj : st.obj with
  | none =>
    dsimp only
    rw [if_neg (by simp)]
    simp [partWrites]
  | some o =>
    dsimp only
    by_cases hsi : o.si ≠ 0
    · rw [if_pos ⟨by simp, hsi⟩]
      simp [partWrites]
    · rw [if_neg (fun hc => hsi hc.2)]
      simp [partWrites]

theorem handle_validate_err (env : Env) (st : St) (u : DbUpload) (key : String)
    (manifest : List CPart) (numbers : List Nat) (e : S3Err)
    (hval : get_upload_parts_and_validate env.hETag MULTIPART_UPLOAD_MIN_SIZE
      (st.parts.filter (fun p => p.upload_id = u.uid)) manifest = .error e) :
    (complete_multipart_upload_handle env st u key manifest numbers).2.2 = .error e ∧
      (complete_multipart_upload_handle env st u key manifest numbers).1.parts
        = st.parts ∧
      (complete_multipart_upload_handle env st u key manifest numbers).1.upload
        = st.upload := by
  unfold complete_multipart_upload_handle
  obtain ⟨hp2, hu2, -⟩ := resolve_reset_obj_frame env st key
  cases hrr : resolve_reset_obj env st key with
  | mk st2 rest0 =>
    obtain ⟨o1, tr0⟩ := rest0
    rw [hrr] at hp2 hu2
    simp only at hp2 hu2
    dsimp only
    rw [hp2, hval]
    simp [hp2, hu2]

/-- Two consecutive status updates restore the row exactly when the final status is
the starting one. -/
theorem upload_eta (u : DbUpload) (s : UStatus) (h : u.status = s) :
    { u with status := s } = u := by
  cases u
  simp_all

theorem failedUploadDeletes_append (a b : List Ev) :
    failedUploadDeletes (a ++ b) = failedUploadDeletes a + failedUploadDeletes b := by
  simp [failedUploadDeletes, List.countP_append]

/-- Success analysis of `complete_multipart_upload_handle`: a successful completion
returns exactly the validation stage's composite ETag; its part-write trace is the
expected ascending composition trace at cumulative offsets; the destination object
row ends with size equal to the composed total, checksum equal to the whole-object
digest of the composed byte stream and the upload's ACL code; and the upload row is
deleted, or marked Completed after two failed deletions, or (when even that status
write fails, or the upload already was Completed) left as it entered the handle. -/
theorem handle_ok_inv (env : Env) (st : St) (u : DbUpload) (key : String)
    (manifest : List CPart) (numbers : List Nat) (st' : St) (tr : List Ev)
    (etagRet : String)
    (h : complete_multipart_upload_handle env st u key manifest numbers =
      (st', tr, .ok etagRet)) :
    ∃ used unused,
      get_upload_parts_and_validate env.hETag MULTIPART_UPLOAD_MIN_SIZE
        (st.parts.filter (fun p => p.upload_id = u.uid)) manifest =
          .ok (used, unused, etagRet) ∧
      partWrites tr = expectedTrace used numbers 0 ∧
      (∃ o', st'.obj = some o' ∧
        o'.si = sumSizes (expectedTrace used numbers 0) ∧
        o'.md5 = env.fmd5 (composedStream env used numbers) ∧
        o'.share = u.obj_perms_code) ∧
      (st'.upload = none ∨
        (st'.upload = some { u with status := UStatus.completed } ∧
          2 ≤ failedUploadDeletes tr) ∨
        (st'.upload = st.upload ∧ 2 ≤ failedUploadDeletes tr ∧
          (Ev.statusSet .completed false ∈ tr ∨ u.status = .completed))) := by
  unfold complete_multipart_upload_handle at h
  obtain ⟨hp2, hu2, htr0⟩ := resolve_reset_obj_frame env st key
  cases hrr : resolve_reset_obj env st key with
  | mk st2 rest0 =>
  obtain ⟨o1, tr0⟩ := rest0
  rw [hrr] at h hp2 hu2 htr0
  simp only at hp2 hu2 htr0
  dsimp only at h
  rw [hp2] at h
  cases hval : get_upload_parts_and_validate env.hETag MULTIPART_UPLOAD_MIN_SIZE
      (st.parts.filter (fun p => p.upload_id = u.uid)) manifest with
  | error e =>
    rw [hval] at h
    simp at h
  | ok res =>
  obtain ⟨used, unused, objEtag⟩ := res
  rw [hval] at h
  dsimp only at h
  obtain ⟨hcu, hco⟩ := composeLoop_frame env used objEtag o1.oid numbers.length
    numbers st2 0 []
  cases hcl : composeLoop env used objEtag o1.oid numbers.length numbers st2 0 []
    with
  | mk st3 rest1 =>
  obtain ⟨tr1, r1⟩ := rest1
  rw [hcl] at h hcu hco
  simp only at hcu hco
  dsimp only at h
  cases r1 with
  | error e => simp at h
  | ok v =>
  obtain ⟨finalOffset, bytes⟩ := v
  obtain ⟨hctr, hcoff, hcacc⟩ := composeLoop_ok_inv env used objEtag o1.oid
    numbers.length numbers st2 0 [] st3 tr1 finalOffset bytes hcl
  dsimp only at h
  cases hum : update_obj_metedata env st3 o1 finalOffset (env.fmd5 bytes)
      u.obj_perms_code with
  | mk st4 rest2 =>
  obtain ⟨tr2, okMeta⟩ := rest2
  obtain ⟨hup4, huu4, htr2⟩ := update_obj_metedata_frame env st3 o1 finalOffset
    (env.fmd5 bytes) u.obj_perms_code
  rw [hum] at h hup4 huu4 htr2
  simp only at hup4 huu4 htr2
  dsimp only at h
  cases okMeta with
  | false => simp at h
  | true =>
  rw [if_neg (by simp)] at h
  have hobj4 : st4.obj = some { o1 with
      si := finalOffset, md5 := env.fmd5 bytes, upt := env.now,
      share := u.obj_perms_code, stl := false } := by
    have := hum
    unfold update_obj_metedata St.drawDb at this
    dsimp only at this
    split at this
    · simp only [Prod.mk.injEq] at this
      rw [← this.1]
    · simp only [Prod.mk.injEq] at this
      exact absurd this.2.2 (by simp)
  obtain ⟨hg1u, hg1o, hg1w, hg1tr⟩ := clear_parts_cache_frame env true unused st4
  cases hc1 : clear_parts_cache env true unused st4 with
  | mk st5 rest3 =>
  obtain ⟨tr3, failedA⟩ := rest3
  rw [hc1] at h hg1u hg1o hg1w hg1tr
  simp only at hg1u hg1o hg1w hg1tr
  dsimp only at h
  obtain ⟨hg2u, hg2o, hg2w, hg2tr⟩ :=
    clear_parts_cache_frame env false (used.map Prod.snd) st5
  cases hc2 : clear_parts_cache env false (used.map Prod.snd) st5 with
  | mk st6 rest4 =>
  obtain ⟨tr4, failedB⟩ := rest4
  rw [hc2] at h hg2u hg2o hg2w hg2tr
  simp only at hg2u hg2o hg2w hg2tr
  dsimp only at h
  have hup6 : st6.upload = st.upload := by
    rw [hg2u, hg1u, huu4, hcu, hu2]
  have hobj6 : st6.obj = st4.obj := by rw [hg2o, hg1o]
  cases hd1 : uploadSafeDelete env st6 with
  | mk st7 rest5 =>
  obtain ⟨ok1, tr5⟩ := rest5
  rw [hd1] at h
  dsimp only at h
  have hd1' := hd1
  unfold uploadSafeDelete St.drawDb at hd1'
  dsimp only at hd1'
  cases ok1 with
  | true =>
    -- first delete succeeded: upload row gone
    have h7 : st7.upload = none ∧ st7.obj = st6.obj ∧ tr5 = [Ev.uploadDelete true] := by
      split at hd1'
      · simp only [Prod.mk.injEq] at hd1'
        rw [← hd1'.1, ← hd1'.2.2]
        simp
      · simp only [Prod.mk.injEq] at hd1'
        exact absurd hd1'.2.1 (by simp)
    rw [if_pos rfl] at h
    simp only [Prod.mk.injEq, Except.ok.injEq] at h
    obtain ⟨hst, htr, hetag⟩ := h
    refine ⟨used, unused, by subst hetag; rfl, ?_, ?_, ?_⟩
    · rw [← htr]
      simp [partWrites_append, htr0, hctr, htr2, hg1tr, hg2tr, h7.2.2, partWrites]
    · refine ⟨_, by rw [← hst, h7.2.1, hobj6, hobj4], ?_, ?_, ?_⟩ <;>
        simp [hcoff, hcacc]
    · exact .inl (by rw [← hst, h7.1])
  | false =>
    have h7 : st7.upload = st6.upload ∧ st7.obj = st6.obj ∧
        tr5 = [Ev.uploadDelete false] := by
      split at hd1'
      · simp only [Prod.mk.injEq] at hd1'
        exact absurd hd1'.2.1 (by simp)
      · simp only [Prod.mk.injEq] at hd1'
        rw [← hd1'.1, ← hd1'.2.2]
        simp
    rw [if_neg (by simp)] at h
    cases hd2 : uploadSafeDelete env st7 with
    | mk st8 rest6 =>
    obtain ⟨ok2, tr6⟩ := rest6
    rw [hd2] at h
    dsimp only at h
    have hd2' := hd2
    unfold uploadSafeDelete St.drawDb at hd2'
    dsimp only at hd2'
    cases ok2 with
    | true =>
      have h8 : st8.upload = none ∧ st8.obj = st7.obj ∧
          tr6 = [Ev.uploadDelete true] := by
        split at hd2'
        · simp only [Prod.mk.injEq] at hd2'
          rw [← hd2'.1, ← hd2'.2.2]
          simp
        · simp only [Prod.mk.injEq] at hd2'
          exact absurd hd2'.2.1 (by simp)
      rw [if_pos rfl] at h
      simp only [Prod.mk.injEq, Except.ok.injEq] at h
      obtain ⟨hst, htr, hetag⟩ := h
      refine ⟨used, unused, by subst hetag; rfl, ?_, ?_, ?_⟩
      · rw [← htr]
        simp [partWrites_append, htr0, hctr, htr2, hg1tr, hg2tr, h7.2.2, h8.2.2,
          partWrites]
      · refine ⟨_, by rw [← hst, h8.2.1, h7.2.1, hobj6, hobj4], ?_, ?_, ?_⟩ <;>
          simp [hcoff, hcacc]
      · exact .inl (by rw [← hst, h8.1])
    | false =>
      have h8 : st8.upload = st7.upload ∧ st8.obj = st7.obj ∧
          tr6 = [Ev.uploadDelete false] := by
        split at hd2'
        · simp only [Prod.mk.injEq] at hd2'
          exact absurd hd2'.2.1 (by simp)
        · simp only [Prod.mk.injEq] at hd2'
          rw [← hd2'.1, ← hd2'.2.2]
          simp
      rw [if_neg (by simp)] at h
      obtain ⟨hsp, hso, hsw, hstr⟩ := setStatus_frame env st8 u .completed
      cases hss : setStatus env st8 u .completed with
      | mk st9 rest7 =>
      obtain ⟨u9, ok3, tr7⟩ := rest7
      rw [hss] at h hsp hso hsw hstr
      simp only at hsp hso hsw hstr
      dsimp only at h
      simp only [Prod.mk.injEq, Except.ok.injEq] at h
      obtain ⟨hst, htr, hetag⟩ := h
      have hss' := hss
      unfold setStatus St.drawDb at hss'
      dsimp only at hss'
      refine ⟨used, unused, by subst hetag; rfl, ?_, ?_, ?_⟩
      · rw [← htr]
        simp [partWrites_append, htr0, hctr, htr2, hg1tr, hg2tr, h7.2.2, h8.2.2,
          hstr, partWrites]
      · refine ⟨_, by rw [← hst, hso, h8.2.1, h7.2.1, hobj6, hobj4], ?_, ?_, ?_⟩ <;>
          simp [hcoff, hcacc]
      · -- status of the delete/degrade tail
        have hcount : 2 ≤ failedUploadDeletes tr := by
          rw [← htr]
          simp only [failedUploadDeletes_append, h7.2.2, h8.2.2]
          simp [failedUploadDeletes]
          omega
        by_cases hcomp : u.status = .completed
        · -- no-op set_completed
          rw [if_pos hcomp] at hss'
          simp only [Prod.mk.injEq] at hss'
          refine .inr (.inr ⟨?_, hcount, .inr hcomp⟩)
          rw [← hst, ← hss'.1, h8.1, h7.1, hup6]
        · rw [if_neg hcomp] at hss'
          cases hdb : env.dbOk st8.dbCtr with
          | true =>
            rw [hdb] at hss'
            simp only [if_true, Prod.mk.injEq] at hss'
            refine .inr (.inl ⟨?_, hcount⟩)
            rw [← hst, ← hss'.1]
          | false =>
            rw [hdb] at hss'
            simp only [Bool.false_eq_true, if_false, Prod.mk.injEq] at hss'
            refine .inr (.inr ⟨?_, hcount, .inl ?_⟩)
            · rw [← hst, ← hss'.1, h8.1, h7.1, hup6]
            · rw [← htr]
              have : tr7 = [Ev.statusSet .completed false] := by
                rw [← hss'.2.2.2]
              simp [this]

/-- Any error of `complete_multipart_upload_handle` leaves the upload row exactly
as it entered: the fallible stages before the terminal delete tail never touch it,
and the tail runs only on success. -/
theorem handle_err_upload (env : Env) (st : St) (u : DbUpload) (key : String)
    (manifest : List CPart) (numbers : List Nat) (st' : St) (tr : List Ev)
    (e : S3Err)
    (h : complete_multipart_upload_handle env st u key manifest numbers =
      (st', tr, .error e)) :
    st'.upload = st.upload := by
  unfold complete_multipart_upload_handle at h
  obtain ⟨hp2, hu2, htr0⟩ := resolve_reset_obj_frame env st key
  cases hrr : resolve_reset_obj env st key with
  | mk st2 rest0 =>
  obtain ⟨o1, tr0⟩ := rest0
  rw [hrr] at h hp2 hu2 htr0
  simp only at hp2 hu2 htr0
  dsimp only at h
  rw [hp2] at h
  cases hval : get_upload_parts_and_validate env.hETag MULTIPART_UPLOAD_MIN_SIZE
      (st.parts.filter (fun p => p.upload_id = u.uid)) manifest with
  | error e0 =>
    rw [hval] at h
    simp only [Prod.mk.injEq, Except.error.injEq] at h
    rw [← h.1, hu2]
  | ok res =>
  obtain ⟨used, unused, objEtag⟩ := res
  rw [hval] at h
  dsimp only at h
  obtain ⟨hcu, hco⟩ := composeLoop_frame env used objEtag o1.oid numbers.length
    numbers st2 0 []
  cases hcl : composeLoop env used objEtag o1.oid numbers.length numbers st2 0 []
    with
  | mk st3 rest1 =>
  obtain ⟨tr1, r1⟩ := rest1
  rw [hcl] at h hcu hco
  simp only at hcu hco
  dsimp only at h
  cases r1 with
  | error e0 =>
    simp only [Prod.mk.injEq, Except.error.injEq] at h
    rw [← h.1, hcu, hu2]
  | ok v =>
  obtain ⟨finalOffset, bytes⟩ := v
  dsimp only at h
  cases hum : update_obj_metedata env st3 o1 finalOffset (env.fmd5 bytes)
      u.obj_perms_code with
  | mk st4 rest2 =>
  obtain ⟨tr2, okMeta⟩ := rest2
  obtain ⟨hup4, huu4, htr2⟩ := update_obj_metedata_frame env st3 o1 finalOffset
    (env.fmd5 bytes) u.obj_perms_code
  rw [hum] at h hup4 huu4 htr2
  simp only at hup4 huu4 htr2
  dsimp only at h
  cases okMeta with
  | false =>
    rw [if_pos (by simp)] at h
    simp only [Prod.mk.injEq, Except.error.injEq] at h
    rw [← h.1, huu4, hcu, hu2]
  | true =>
    rw [if_neg (by simp)] at h
    -- the success tail cannot produce an error result
    exfalso
    cases hc1 : clear_parts_cache env true unused st4 with
    | mk st5 rest3 =>
    obtain ⟨tr3, failedA⟩ := rest3
    rw [hc1] at h
    dsimp only at h
    cases hc2 : clear_parts_cache env false (used.map Prod.snd) st5 with
    | mk st6 rest4 =>
    obtain ⟨tr4, failedB⟩ := rest4
    rw [hc2] at h
    dsimp only at h
    cases hd1 : uploadSafeDelete env st6 with
    | mk st7 rest5 =>
    obtain ⟨ok1, tr5⟩ := rest5
    rw [hd1] at h
    dsimp only at h
    cases ok1 with
    | true =>
      rw [if_pos rfl] at h
      simp at h
    | false =>
      rw [if_neg (by simp)] at h
      cases hd2 : uploadSafeDelete env st7 with
      | mk st8 rest6 =>
      obtain ⟨ok2, tr6⟩ := rest6
      rw [hd2] at h
      dsimp only at h
      cases ok2 with
      | true =>
        rw [if_pos rfl] at h
        simp at h
      | false =>
        rw [if_neg (by simp)] at h
        cases hss : setStatus env st8 u .completed with
        | mk st9 rest7 =>
        obtain ⟨u9, ok3, tr7⟩ := rest7
        rw [hss] at h
        dsimp only at h
        simp at h

/-! Claim theorems. -/

/-- C10: when a part is re-uploaded over an existing (upload id, part number) row,
the persisted row is the stored row with exactly `size`, `part_md5`, `upload_id` and
`modified_time` overwritten (the `update_fields` list of
`upload_part_handle_save`); `obj_id` — in particular a nonzero one from an earlier
completion — `obj_offset`, `obj_etag` and `parts_count` keep their stored values,
because the in-memory `obj_id = 0` assignment is not among the persisted fields. -/
theorem C10_reupload_persists_only_listed_fields (env : Env) (st : St)
    (u : DbUpload) (partNumber newSize : Nat) (newMd5 : String) (part : DbPart)
    (hfind : st.parts.find? (fun p => p.upload_id = u.uid ∧ p.part_num = partNumber)
      = some part)
    (hdb : env.dbOk st.dbCtr = true) :
    let per := applyUpdateFields part
      { part with
        size := newSize, part_md5 := newMd5, upload_id := u.uid, obj_id := 0,
        modified_time := env.now }
      [.size, .part_md5, .upload_id, .modified_time]
    (upload_part_handle_save env st u partNumber newSize newMd5).1.parts =
        updateRow st.parts per ∧
      per.obj_id = part.obj_id ∧ per.obj_offset = part.obj_offset ∧
      per.obj_etag = part.obj_etag ∧ per.parts_count = part.parts_count ∧
      per.size = newSize ∧ per.part_md5 = newMd5 ∧ per.upload_id = u.uid ∧
      per.modified_time = env.now := by
  unfold upload_part_handle_save
  rw [hfind]
  simp only [St.drawDb]
  rw [if_pos hdb]
  refine ⟨rfl, ?_⟩
  simp [applyUpdateFields, copyField]

/-- Witness for C10 at a concrete state: the stored row carries `obj_id = 7` from an
earlier completion and retains it after the re-upload. -/
theorem C10_witness :
    stC10.parts.find? (fun p => p.upload_id = upl1.uid ∧ p.part_num = 1)
        = some partPrior ∧
      envAllOk.dbOk stC10.dbCtr = true ∧
      (applyUpdateFields partPrior
        { partPrior with
          size := 12, part_md5 := "new", upload_id := upl1.uid, obj_id := 0,
          modified_time := envAllOk.now }
        [.size, .part_md5, .upload_id, .modified_time]).obj_id = partPrior.obj_id :=
  ⟨by decide, by decide,
    ((C10_reupload_persists_only_listed_fields envAllOk stC10 upl1 1 12 "new"
      partPrior (by decide) (by decide)).2.1)⟩

/-- C7 counterexample: the claim "at most one request proceeds past the
Uploading→Composing transition" fails on the code's non-atomic check-then-set. In
the interleaving where both requests fetch the row (both see Uploading) before
either runs its `set_composing` save, both proceed. -/
theorem C7_counterexample :
    (runSched [true, false, true, false] (initCSt .uploading)).r1.proceeded = true ∧
      (runSched [true, false, true, false] (initCSt .uploading)).r2.proceeded
        = true := by
  decide

/-- C7 amended: when the two requests do not interleave between the status fetch and
the status write — one request's two steps complete before the other starts — at
most one proceeds, and from the Uploading state the serialized loser observes
Composing and is rejected. -/
theorem C7_amended (s : UStatus) :
    (¬ ((runSched [true, true, false, false] (initCSt s)).r1.proceeded = true ∧
        (runSched [true, true, false, false] (initCSt s)).r2.proceeded = true)) ∧
      (¬ ((runSched [false, false, true, true] (initCSt s)).r1.proceeded = true ∧
          (runSched [false, false, true, true] (initCSt s)).r2.proceeded = true)) ∧
      ((runSched [true, true, false, false] (initCSt .uploading)).r1.proceeded
          = true ∧
        (runSched [true, true, false, false] (initCSt .uploading)).r2.rejected
          = true) := by
  cases s <;> decide

/-- C9 (code bug): `create_multipart_upload` on a key whose existing upload record
is Completed crashes instead of deleting the record and creating a fresh upload:
`sub_views.py:984` invokes `upload.safr_delete()`, an attribute `MultipartUpload`
does not define (the defined method is `safe_delete`, used correctly at lines 1208
and 1438), so Python raises AttributeError; the record is not deleted, no upload id
is returned, and the registry is left untouched. -/
theorem C9_completed_record_attribute_error :
    (create_multipart_upload envAllOk bktB "k" 3 none regCompleted).2 =
      .error .attributeErr ∧
    (create_multipart_upload envAllOk bktB "k" 3 none regCompleted).1.uploads =
      [uplCompleted] := by
  exact ⟨rfl, rfl⟩

/-- C6 counterexample: the claim says a re-initiate (`create_multipart_upload`) for
a key whose Upload is Composing fails with the completion-already-in-progress error
without mutating the Upload. In the code that rejection is commented out
(`sub_views.py:973`): the request instead succeeds with the same upload id and the
Upload is forced from Composing back to Uploading and rebound in place. -/
theorem C6_counterexample :
    (create_multipart_upload envAllOk bktB "k" 5 (some 99) regComposing).2 =
        .ok "up1" ∧
      ¬ (create_multipart_upload envAllOk bktB "k" 5 (some 99) regComposing).2 =
        .error .completeAlreadyInProgress ∧
      (create_multipart_upload envAllOk bktB "k" 5 (some 99) regComposing).1.uploads
        ≠ regComposing.uploads ∧
      ∀ v ∈ (create_multipart_upload envAllOk bktB "k" 5 (some 99)
          regComposing).1.uploads, v.status = .uploading := by
  refine ⟨rfl, ?_, by decide, by decide⟩
  rw [show (create_multipart_upload envAllOk bktB "k" 5 (some 99) regComposing).2 =
    .ok "up1" from rfl]
  simp

/-- C6 amended: while an Upload is Composing, a part upload, an abort and a second
completion are each rejected with the completion-already-in-progress error and leave
the state untouched; a re-initiate for the same key is NOT rejected — it sets the
upload back to Uploading, rebinds it in place to the requested key/ACL/expiry and
returns its id (so Composing→Uploading also happens outside a failed completion). -/
theorem C6_amended (env : Env) (st : St) (u : DbUpload) (key : String)
    (manifest : List CPart) (numbers : List Nat) (raw : List RawPart)
    (partNumber newSize : Nat) (newMd5 : String) (b : Bucket) (permsCode : Nat)
    (expire : Option Nat) (c : Nat)
    (hcomp : u.status = .composing) (hst : st.upload = some u)
    (hkey : u.obj_key = key) (hraw : ¬ raw = [])
    (hparse : handle_validate_complete_parts raw = .ok (manifest, numbers))
    (hbn : u.bucket_name = b.bname) (hbid : u.bucket_id = b.bid)
    (hdb : ∀ n, env.dbOk n = true) :
    upload_part env st u partNumber newSize newMd5 =
        (st, .error .completeAlreadyInProgress) ∧
      abort_multipart_upload env st = (st, [], .error .completeAlreadyInProgress) ∧
      complete_multipart_upload env st key raw =
        (st, [], .error .completeAlreadyInProgress) ∧
      (create_multipart_upload env b key permsCode expire ⟨[u], c⟩).2 = .ok u.uid ∧
      ∀ v ∈ (create_multipart_upload env b key permsCode expire ⟨[u], c⟩).1.uploads,
        v.status = .uploading := by
  refine ⟨?_, ?_, ?_, ?_, ?_⟩
  · simp [upload_part, hcomp]
  · simp [abort_multipart_upload, hst, hcomp]
  · unfold complete_multipart_upload
    rw [if_neg hraw, hparse]
    dsimp only
    rw [hst]
    dsimp only
    rw [if_neg (by simp [hkey]), if_neg (by simp [hcomp]), if_pos hcomp]
  · simp [create_multipart_upload, get_multipart_upload_delete_invalid,
      muDeleteInvalidLoop, update_upload_belong_to_object, RegSt.drawDb,
      hbn, hbid, hkey, hcomp, hdb]
  · simp [create_multipart_upload, get_multipart_upload_delete_invalid,
      muDeleteInvalidLoop, update_upload_belong_to_object, RegSt.drawDb,
      hbn, hbid, hkey, hcomp, hdb]

/-- Witness for C6 amended at a concrete Composing upload. -/
theorem C6_amended_witness :
    upload_part envAllOk stComposing uplComposing 1 12 "m" =
        (stComposing, .error .completeAlreadyInProgress) ∧
      abort_multipart_upload envAllOk stComposing =
        (stComposing, [], .error .completeAlreadyInProgress) ∧
      complete_multipart_upload envAllOk stComposing "k" rawA =
        (stComposing, [], .error .completeAlreadyInProgress) ∧
      (create_multipart_upload envAllOk bktB "k" 3 none
        ⟨[uplComposing], 0⟩).2 = .ok uplComposing.uid ∧
      ∀ v ∈ (create_multipart_upload envAllOk bktB "k" 3 none
          ⟨[uplComposing], 0⟩).1.uploads, v.status = .uploading :=
  C6_amended envAllOk stComposing uplComposing "k" [⟨1, some "aa"⟩] [1] rawA
    1 12 "m" bktB 3 none 0 (by decide) rfl (by decide) (by decide) (by decide)
    (by decide) (by decide) (fun n => rfl)

/-- What one part's cleanup can do to the tables: the part's metadata row is either
removed (every row with its pid filtered out) or, when both delete attempts failed
(and only with `rm = true`), left in place; its backend bytes id is appended to the
deleted set or not; a reported non-failure with `rm = true` implies the row was
removed. -/
theorem clearOnePart_cases (env : Env) (rm : Bool) (st : St) (p : DbPart) :
    ((clearOnePart env rm st p).1.parts = st.parts ∨
      (clearOnePart env rm st p).1.parts =
        st.parts.filter (fun q => q.pid ≠ p.pid)) ∧
      ((clearOnePart env rm st p).1.partBytesDeleted = st.partBytesDeleted ∨
        (clearOnePart env rm st p).1.partBytesDeleted =
          st.partBytesDeleted ++ [p.pid]) ∧
      ((clearOnePart env rm st p).2.2 = false → rm = true →
        (clearOnePart env rm st p).1.parts =
          st.parts.filter (fun q => q.pid ≠ p.pid)) ∧
      (rm = false → (clearOnePart env rm st p).1.parts = st.parts) := by
  unfold clearOnePart St.drawDb St.drawRados
  dsimp only
  repeat' split
  all_goals simp_all

theorem clear_parts_cache_subset (env : Env) (rm : Bool) :
    ∀ ps st q, q ∈ (clear_parts_cache env rm ps st).1.parts → q ∈ st.parts := by
  intro ps
  induction ps with
  | nil => intro st q h; simpa [clear_parts_cache] using h
  | cons p rest ih =>
    intro st q h
    simp only [clear_parts_cache] at h
    cases hc : clearOnePart env rm st p with
    | mk st1 rest2 =>
    obtain ⟨tr1, mf⟩ := rest2
    rw [hc] at h
    dsimp only at h
    obtain ⟨hcases, -, -, -⟩ := clearOnePart_cases env rm st p
    rw [hc] at hcases
    simp only at hcases
    have hq1 : q ∈ st1.parts := by
      cases hrec : clear_parts_cache env rm rest st1 with
      | mk st2 rest3 =>
        obtain ⟨tr2, failed⟩ := rest3
        rw [hrec] at h
        dsimp only at h
        exact ih st1 q (by rw [hrec]; exact h)
    rcases hcases with hcases | hcases
    · rw [hcases] at hq1
      exact hq1
    · rw [hcases] at hq1
      exact List.mem_of_mem_filter hq1

theorem clear_parts_cache_keep (env : Env) (rm : Bool) :
    ∀ ps st q, q ∈ st.parts → (∀ p ∈ ps, ¬ q.pid = p.pid) →
      q ∈ (clear_parts_cache env rm ps st).1.parts := by
  intro ps
  induction ps with
  | nil => intro st q h _; simpa [clear_parts_cache] using h
  | cons p rest ih =>
    intro st q h hne
    simp only [clear_parts_cache]
    cases hc : clearOnePart env rm st p with
    | mk st1 rest2 =>
    obtain ⟨tr1, mf⟩ := rest2
    dsimp only
    obtain ⟨hcases, -, -, -⟩ := clearOnePart_cases env rm st p
    rw [hc] at hcases
    simp only at hcases
    have hq1 : q ∈ st1.parts := by
      rcases hcases with hcases | hcases
      · rw [hcases]; exact h
      · rw [hcases]
        exact List.mem_filter.mpr ⟨h, by simpa using hne p (by simp)⟩
    cases hrec : clear_parts_cache env rm rest st1 with
    | mk st2 rest3 =>
      obtain ⟨tr2, failed⟩ := rest3
      dsimp only
      have := ih st1 q hq1 (fun r hr => hne r (by simp [hr]))
      rw [hrec] at this
      exact this

theorem clear_parts_cache_removes (env : Env) :
    ∀ ps st q, q ∈ (clear_parts_cache env true ps st).1.parts →
      ∀ p ∈ ps, q.pid = p.pid →
        ∃ f ∈ (clear_parts_cache env true ps st).2.2, q.pid = f.pid := by
  intro ps
  induction ps with
  | nil => intro st q hq p hp; simp at hp
  | cons p rest ih =>
    intro st q hq p' hp' hpid
    simp only [clear_parts_cache] at hq ⊢
    cases hc : clearOnePart env true st p with
    | mk st1 rest2 =>
    obtain ⟨tr1, mf⟩ := rest2
    rw [hc] at hq
    dsimp only at hq
    obtain ⟨-, -, hok, -⟩ := clearOnePart_cases env true st p
    rw [hc] at hok
    simp only at hok
    cases hrec : clear_parts_cache env true rest st1 with
    | mk st2 rest3 =>
    obtain ⟨tr2, failed⟩ := rest3
    rw [hrec] at hq
    dsimp only at hq ⊢
    rcases List.mem_cons.mp hp' with hp' | hp'
    · subst hp'
      cases hmf : mf with
      | false =>
        -- the row was removed, so q cannot still carry p's pid
        exfalso
        have hrm := hok hmf trivial
        have hq1 : q ∈ st1.parts := clear_parts_cache_subset env true rest st1 q
          (by rw [hrec]; exact hq)
        rw [hrm] at hq1
        have := List.of_mem_filter hq1
        simp [hpid] at this
      | true =>
        refine ⟨p', ?_, hpid⟩
        simp [hmf]
    · obtain ⟨f, hf, hfp⟩ := ih st1 q (by rw [hrec]; exact hq) p' hp' hpid
      rw [hrec] at hf
      simp only at hf
      refine ⟨f, ?_, hfp⟩
      cases mf <;> simp [hf]

theorem clear_parts_cache_bytes (env : Env) (rm : Bool) :
    ∀ ps st x, x ∈ (clear_parts_cache env rm ps st).1.partBytesDeleted →
      x ∈ st.partBytesDeleted ∨ ∃ p ∈ ps, x = p.pid := by
  intro ps
  induction ps with
  | nil => intro st x h; exact .inl (by simpa [clear_parts_cache] using h)
  | cons p rest ih =>
    intro st x h
    simp only [clear_parts_cache] at h
    cases hc : clearOnePart env rm st p with
    | mk st1 rest2 =>
    obtain ⟨tr1, mf⟩ := rest2
    rw [hc] at h
    dsimp only at h
    obtain ⟨-, hbytes, -, -⟩ := clearOnePart_cases env rm st p
    rw [hc] at hbytes
    simp only at hbytes
    cases hrec : clear_parts_cache env rm rest st1 with
    | mk st2 rest3 =>
    obtain ⟨tr2, failed⟩ := rest3
    rw [hrec] at h
    dsimp only at h
    rcases ih st1 x (by rw [hrec]; exact h) with h1 | ⟨r, hr, hrx⟩
    · rcases hbytes with hb | hb
      · rw [hb] at h1
        exact .inl h1
      · rw [hb] at h1
        rcases List.mem_append.mp h1 with h1 | h1
        · exact .inl h1
        · exact .inr ⟨p, by simp, by simpa using h1⟩
    · exact .inr ⟨r, by simp [hr], hrx⟩

/-- The failed sublist returned by `clear_parts_cache` only holds parts of the
processed list. -/
theorem clear_parts_cache_failed_subset (env : Env) (rm : Bool) :
    ∀ ps st f, f ∈ (clear_parts_cache env rm ps st).2.2 → f ∈ ps := by
  intro ps
  induction ps with
  | nil => intro st f h; simp [clear_parts_cache] at h
  | cons p rest ih =>
    intro st f h
    simp only [clear_parts_cache] at h
    cases hc : clearOnePart env rm st p with
    | mk st1 rest2 =>
    obtain ⟨tr1, mf⟩ := rest2
    rw [hc] at h
    dsimp only at h
    cases hrec : clear_parts_cache env rm rest st1 with
    | mk st2 rest3 =>
    obtain ⟨tr2, failed⟩ := rest3
    rw [hrec] at h
    dsimp only at h
    by_cases hmf : mf = true
    · rw [if_pos hmf] at h
      rcases List.mem_cons.mp h with h | h
      · simp [h]
      · exact List.mem_cons_of_mem p (ih st1 f (by rw [hrec]; exact h))
    · rw [if_neg hmf] at h
      exact List.mem_cons_of_mem p (ih st1 f (by rw [hrec]; exact h))

/-- `MultipartUpload.safe_delete`: no byte-store state is touched; a `true` result
means the upload row is gone, a `false` result leaves it in place. -/
theorem uploadSafeDelete_cases (env : Env) (st : St) :
    (uploadSafeDelete env st).1.partBytesDeleted = st.partBytesDeleted ∧
      ((uploadSafeDelete env st).2.1 = true →
        (uploadSafeDelete env st).1.upload = none) ∧
      ((uploadSafeDelete env st).2.1 = false →
        (uploadSafeDelete env st).1.upload = st.upload) := by
  unfold uploadSafeDelete St.drawDb
  dsimp only
  split <;> simp

/-- `clear_parts_cache` never touches the upload row or grows the parts table; a
restatement of the frame lemma for rewriting with an equation. -/
theorem clear_parts_cache_bytes_mono (env : Env) (rm : Bool) :
    ∀ ps st x, x ∈ st.partBytesDeleted →
      x ∈ (clear_parts_cache env rm ps st).1.partBytesDeleted := by
  intro ps
  induction ps with
  | nil => intro st x h; simpa [clear_parts_cache] using h
  | cons p rest ih =>
    intro st x h
    simp only [clear_parts_cache]
    cases hc : clearOnePart env rm st p with
    | mk st1 rest2 =>
    obtain ⟨tr1, mf⟩ := rest2
    dsimp only
    obtain ⟨-, hbytes, -, -⟩ := clearOnePart_cases env rm st p
    rw [hc] at hbytes
    simp only at hbytes
    have h1 : x ∈ st1.partBytesDeleted := by
      rcases hbytes with hb | hb
      · rw [hb]; exact h
      · rw [hb]; exact List.mem_append_left _ h
    cases hrec : clear_parts_cache env rm rest st1 with
    | mk st2 rest3 =>
    obtain ⟨tr2, failed⟩ := rest3
    dsimp only
    have := ih st1 x h1
    rw [hrec] at this
    exact this

/-- Distinct pids identify rows: in a table whose pid column is duplicate-free, two
member rows with the same pid are the same row. -/
theorem pid_inj_of_nodup {l : List DbPart} (h : (l.map DbPart.pid).Nodup)
    {a b : DbPart} (ha : a ∈ l) (hb : b ∈ l) (hab : a.pid = b.pid) : a = b :=
  List.inj_on_of_nodup_map h ha hb hab

/-- C8: counterexample. With every backend byte-store deletion failing
(`envRadosFail`) and one never-composed part (`stAbort`), the part's backend bytes
are NOT deleted (the trace records the failed byte deletion and the deleted-bytes set
stays empty), yet abort deletes the Upload row and reports success: the claim
requires that a part whose backend bytes fail to clean up counts as a cleanup
failure, which for 1 of 1 parts is more than half, hence an internal error without
deleting the Upload row. The code counts only metadata-row deletion failures. -/
theorem C8_counterexample :
    (abort_multipart_upload envRadosFail stAbort).2.2 = .ok () ∧
      (abort_multipart_upload envRadosFail stAbort).1.upload = none ∧
      (abort_multipart_upload envRadosFail stAbort).1.partBytesDeleted = [] ∧
      Ev.partBytesDelete partB.pid false ∈
        (abort_multipart_upload envRadosFail stAbort).2.1 := by
  decide

/-- C8 (amended): abort of an upload that is neither Composing nor Completed
touches only the upload's never-composed part rows (`obj_id = 0`): when the pid
column is duplicate-free, every other row survives, the rows after the abort are a
subset of the rows before, only targeted parts can enter the deleted-bytes set, the
outcome is success or InternalError, success deletes the Upload row and leaves no
targeted row behind, and InternalError leaves the Upload row in place. Cleanup
failure is counted on metadata-row deletion only; backend byte-delete failures are
ignored (see the counterexample). -/
theorem C8_amended (env : Env) (st : St) (u : DbUpload)
    (hu : st.upload = some u) (hcomposing : ¬ u.status = .composing)
    (hcompleted : ¬ u.status = .completed)
    (hnodup : (st.parts.map DbPart.pid).Nodup) :
    ((abort_multipart_upload env st).2.2 = .ok () ∨
      (abort_multipart_upload env st).2.2 = .error S3Err.internalErr) ∧
      (∀ q ∈ (abort_multipart_upload env st).1.parts, q ∈ st.parts) ∧
      (∀ q ∈ st.parts, ¬(q.upload_id = u.uid ∧ q.obj_id = 0) →
        q ∈ (abort_multipart_upload env st).1.parts) ∧
      (∀ x ∈ (abort_multipart_upload env st).1.partBytesDeleted,
        x ∈ st.partBytesDeleted ∨
          ∃ p ∈ st.parts, (p.upload_id = u.uid ∧ p.obj_id = 0) ∧ x = p.pid) ∧
      ((abort_multipart_upload env st).2.2 = .ok () →
        (abort_multipart_upload env st).1.upload = none ∧
          ∀ q ∈ (abort_multipart_upload env st).1.parts,
            ¬(q.upload_id = u.uid ∧ q.obj_id = 0)) ∧
      ((abort_multipart_upload env st).2.2 = .error S3Err.internalErr →
        (abort_multipart_upload env st).1.upload = st.upload) := by
  have hdisj : ∀ q ∈ st.parts, ¬(q.upload_id = u.uid ∧ q.obj_id = 0) →
      ∀ p ∈ st.parts.filter (fun p => p.upload_id = u.uid ∧ p.obj_id = 0),
        ¬ q.pid = p.pid := by
    intro q hq hnq p hp hpid
    have hpmem := List.mem_of_mem_filter hp
    have hppred := List.of_mem_filter hp
    have heq := pid_inj_of_nodup hnodup hq hpmem hpid
    apply hnq
    rw [heq]
    simpa using hppred
  simp only [abort_multipart_upload, hu]
  rw [if_neg hcomposing, if_neg hcompleted]
  have hcf1 := (clear_parts_cache_frame env true
    (st.parts.filter (fun p => p.upload_id = u.uid ∧ p.obj_id = 0)) st).1
  have hsub1 := clear_parts_cache_subset env true
    (st.parts.filter (fun p => p.upload_id = u.uid ∧ p.obj_id = 0)) st
  have hkeep1 := clear_parts_cache_keep env true
    (st.parts.filter (fun p => p.upload_id = u.uid ∧ p.obj_id = 0)) st
  have hbytes1 := clear_parts_cache_bytes env true
    (st.parts.filter (fun p => p.upload_id = u.uid ∧ p.obj_id = 0)) st
  have hrem1 := clear_parts_cache_removes env
    (st.parts.filter (fun p => p.upload_id = u.uid ∧ p.obj_id = 0)) st
  have hfsub := clear_parts_cache_failed_subset env true
    (st.parts.filter (fun p => p.upload_id = u.uid ∧ p.obj_id = 0)) st
  cases hcl1 : clear_parts_cache env true
      (st.parts.filter (fun p => p.upload_id = u.uid ∧ p.obj_id = 0)) st with
  | mk st1 r1 =>
  obtain ⟨tr1, failed⟩ := r1
  rw [hcl1] at hcf1 hsub1 hkeep1 hbytes1 hrem1 hfsub
  simp only at hcf1 hsub1 hkeep1 hbytes1 hrem1 hfsub
  dsimp only
  have hmapP : ∀ x, (∃ p ∈ st.parts.filter
        (fun p => p.upload_id = u.uid ∧ p.obj_id = 0), x = p.pid) →
      ∃ p ∈ st.parts, (p.upload_id = u.uid ∧ p.obj_id = 0) ∧ x = p.pid := by
    intro x ⟨p, hp, hx⟩
    exact ⟨p, List.mem_of_mem_filter hp,
      by simpa using List.of_mem_filter hp, hx⟩
  by_cases hfe : failed = []
  · rw [if_neg (not_not_intro hfe)]
    have hfu1 := (uploadSafeDelete_frame env st1).1
    obtain ⟨hub, hok, hnotok⟩ := uploadSafeDelete_cases env st1
    cases hud : uploadSafeDelete env st1 with
    | mk st3 r3 =>
    obtain ⟨okd, tr3⟩ := r3
    rw [hud] at hfu1 hub hok hnotok
    simp only at hfu1 hub hok hnotok
    dsimp only
    have hnotarget : ∀ q ∈ st3.parts, ¬(q.upload_id = u.uid ∧ q.obj_id = 0) := by
      intro q hq hqpred
      rw [hfu1] at hq
      have hqt : q ∈ st.parts.filter
          (fun p => p.upload_id = u.uid ∧ p.obj_id = 0) :=
        List.mem_filter.mpr ⟨hsub1 q hq, by simpa using hqpred⟩
      obtain ⟨f, hf, -⟩ := hrem1 q hq q hqt rfl
      rw [hfe] at hf
      simp at hf
    cases okd with
    | true =>
      rw [if_pos rfl]
      refine ⟨.inl rfl, ?_, ?_, ?_, ?_, ?_⟩
      · intro q hq
        rw [hfu1] at hq
        exact hsub1 q hq
      · intro q hq hnq
        rw [hfu1]
        exact hkeep1 q hq (hdisj q hq hnq)
      · intro x hx
        rw [hub] at hx
        rcases hbytes1 x hx with h | h
        · exact .inl h
        · exact .inr (hmapP x h)
      · intro _
        exact ⟨hok rfl, hnotarget⟩
      · intro hcontra
        exact Except.noConfusion hcontra
    | false =>
      rw [if_neg (by simp)]
      refine ⟨.inr rfl, ?_, ?_, ?_, ?_, ?_⟩
      · intro q hq
        rw [hfu1] at hq
        exact hsub1 q hq
      · intro q hq hnq
        rw [hfu1]
        exact hkeep1 q hq (hdisj q hq hnq)
      · intro x hx
        rw [hub] at hx
        rcases hbytes1 x hx with h | h
        · exact .inl h
        · exact .inr (hmapP x h)
      · intro hcontra
        exact Except.noConfusion hcontra
      · intro _
        exact ((hnotok rfl).trans hcf1).trans hu
  · rw [if_pos hfe]
    by_cases hhalf : failed.length >
        (st.parts.filter (fun p => p.upload_id = u.uid ∧ p.obj_id = 0)).length / 2
    · rw [if_pos hhalf]
      refine ⟨.inr rfl, hsub1, ?_, ?_, ?_, ?_⟩
      · intro q hq hnq
        exact hkeep1 q hq (hdisj q hq hnq)
      · intro x hx
        rcases hbytes1 x hx with h | h
        · exact .inl h
        · exact .inr (hmapP x h)
      · intro hcontra
        exact Except.noConfusion hcontra
      · intro _
        exact hcf1.trans hu
    · rw [if_neg hhalf]
      have hcf2 := (clear_parts_cache_frame env true failed st1).1
      have hsub2 := clear_parts_cache_subset env true failed st1
      have hkeep2 := clear_parts_cache_keep env true failed st1
      have hbytes2 := clear_parts_cache_bytes env true failed st1
      have hrem2 := clear_parts_cache_removes env failed st1
      cases hcl2 : clear_parts_cache env true failed st1 with
      | mk st2 r2 =>
      obtain ⟨tr2, failed2⟩ := r2
      rw [hcl2] at hcf2 hsub2 hkeep2 hbytes2 hrem2
      simp only at hcf2 hsub2 hkeep2 hbytes2 hrem2
      dsimp only
      have hsub12 : ∀ q ∈ st2.parts, q ∈ st.parts :=
        fun q hq => hsub1 q (hsub2 q hq)
      have hkeep12 : ∀ q ∈ st.parts, ¬(q.upload_id = u.uid ∧ q.obj_id = 0) →
          q ∈ st2.parts := by
        intro q hq hnq
        exact hkeep2 q (hkeep1 q hq (hdisj q hq hnq))
          (fun p hp => hdisj q hq hnq p (hfsub p hp))
      have hbytes12 : ∀ x ∈ st2.partBytesDeleted, x ∈ st.partBytesDeleted ∨
          ∃ p ∈ st.parts, (p.upload_id = u.uid ∧ p.obj_id = 0) ∧ x = p.pid := by
        intro x hx
        rcases hbytes2 x hx with h | ⟨p, hp, hx'⟩
        · rcases hbytes1 x h with h | h
          · exact .inl h
          · exact .inr (hmapP x h)
        · exact .inr (hmapP x ⟨p, hfsub p hp, hx'⟩)
      by_cases hfe2 : failed2 = []
      · rw [if_neg (not_not_intro hfe2)]
        have hfu2 := (uploadSafeDelete_frame env st2).1
        obtain ⟨hub2, hok2, hnotok2⟩ := uploadSafeDelete_cases env st2
        cases hud : uploadSafeDelete env st2 with
        | mk st3 r3 =>
        obtain ⟨okd, tr3⟩ := r3
        rw [hud] at hfu2 hub2 hok2 hnotok2
        simp only at hfu2 hub2 hok2 hnotok2
        dsimp only
        have hnotarget : ∀ q ∈ st3.parts,
            ¬(q.upload_id = u.uid ∧ q.obj_id = 0) := by
          intro q hq hqpred
          rw [hfu2] at hq
          have hq1 : q ∈ st1.parts := hsub2 q hq
          have hqt : q ∈ st.parts.filter
              (fun p => p.upload_id = u.uid ∧ p.obj_id = 0) :=
            List.mem_filter.mpr ⟨hsub1 q hq1, by simpa using hqpred⟩
          obtain ⟨f, hf, hfp⟩ := hrem1 q hq1 q hqt rfl
          obtain ⟨f2, hf2, -⟩ := hrem2 q hq f hf hfp
          rw [hfe2] at hf2
          simp at hf2
        cases okd with
        | true =>
          rw [if_pos rfl]
          refine ⟨.inl rfl, ?_, ?_, ?_, ?_, ?_⟩
          · intro q hq
            rw [hfu2] at hq
            exact hsub12 q hq
          · intro q hq hnq
            rw [hfu2]
            exact hkeep12 q hq hnq
          · intro x hx
            rw [hub2] at hx
            exact hbytes12 x hx
          · intro _
            exact ⟨hok2 rfl, hnotarget⟩
          · intro hcontra
            exact Except.noConfusion hcontra
        | false =>
          rw [if_neg (by simp)]
          refine ⟨.inr rfl, ?_, ?_, ?_, ?_, ?_⟩
          · intro q hq
            rw [hfu2] at hq
            exact hsub12 q hq
          · intro q hq hnq
            rw [hfu2]
            exact hkeep12 q hq hnq
          · intro x hx
            rw [hub2] at hx
            exact hbytes12 x hx
          · intro hcontra
            exact Except.noConfusion hcontra
          · intro _
            exact (((hnotok2 rfl).trans hcf2).trans hcf1).trans hu
      · rw [if_pos hfe2]
        refine ⟨.inr rfl, hsub12, hkeep12, hbytes12, ?_, ?_⟩
        · intro hcontra
          exact Except.noConfusion hcontra
        · intro _
          exact ((hcf2.trans hcf1)).trans hu

/-- Witness for `C8_amended` at a concrete abort state. -/
theorem C8_amended_witness :
    stAbort.upload = some upl1 ∧ ¬ upl1.status = .composing ∧
      ¬ upl1.status = .completed ∧ (stAbort.parts.map DbPart.pid).Nodup ∧
      ((abort_multipart_upload envAllOk stAbort).2.2 = .ok () ∨
        (abort_multipart_upload envAllOk stAbort).2.2 = .error S3Err.internalErr) :=
  ⟨by decide, by decide, by decide, by decide,
    (C8_amended envAllOk stAbort upl1 (by decide) (by decide) (by decide)
      (by decide)).1⟩

/-- An `EntityTooSmall` verdict on one part comes only from the size branch: the
part is matched by the manifest, undersized and not the last manifest number. -/
theorem partViolation_ets_inv (minSize lastNum : Nat) (manifest : List CPart)
    (p : DbPart)
    (h : partViolation minSize lastNum manifest p = some .entityTooSmall) :
    (findC manifest p.part_num).isSome ∧ p.size < minSize ∧
      p.part_num ≠ lastNum := by
  unfold partViolation at h
  cases hfc : findC manifest p.part_num with
  | none => rw [hfc] at h; simp at h
  | some c =>
    rw [hfc] at h
    simp only at h
    repeat' split at h
    all_goals simp_all

/-- An `InvalidPart` verdict on one part comes only from the checksum branch: the
manifest holds an entry for the part's number whose claimed checksum is absent or
differs (after quote stripping) from the stored checksum. -/
theorem partViolation_ip_inv (minSize lastNum : Nat) (manifest : List CPart)
    (p : DbPart)
    (h : partViolation minSize lastNum manifest p = some .invalidPart) :
    ∃ c ∈ manifest, c.num = p.part_num ∧
      (c.etag = none ∨ ∃ e, c.etag = some e ∧ stripChar '"' e ≠ p.part_md5) := by
  unfold partViolation at h
  cases hfc : findC manifest p.part_num with
  | none => rw [hfc] at h; simp at h
  | some c =>
    rw [hfc] at h
    simp only at h
    have hfc' := hfc
    simp only [findC] at hfc'
    have hcm : c ∈ manifest := List.mem_of_find?_eq_some hfc'
    have hcn : c.num = p.part_num := by
      simpa using List.find?_some hfc'
    refine ⟨c, hcm, hcn, ?_⟩
    split at h
    · simp at h
    · cases hetag : c.etag with
      | none => exact .inl rfl
      | some e =>
        rw [hetag] at h
        simp only at h
        split at h
        · exact .inr ⟨e, rfl, by assumption⟩
        · simp at h

/-- C4: counterexample to the claimed "EntityTooSmall if and only if". The queryset
holds part 1 (checksum mismatched by the manifest), part 2 (undersized and not the
highest manifest number) and part 3; an undersized non-final used part exists, so the
claimed iff requires `EntityTooSmall`, but the scan visits part 1 first and its
per-part checks run size-then-checksum, so validation raises `InvalidPart`: under a
mixed-violation queryset the verdict depends on queryset order and per-part check
order, and the iff fails. -/
theorem C4_counterexample :
    get_upload_parts_and_validate joinDigest MULTIPART_UPLOAD_MIN_SIZE c4parts
        c4manifest = .error .invalidPart ∧
      (∃ p ∈ c4parts, (findC c4manifest p.part_num).isSome ∧
        p.size < MULTIPART_UPLOAD_MIN_SIZE ∧
        p.part_num ≠ (c4manifest.map CPart.num).foldr max 0) ∧
      ¬ (get_upload_parts_and_validate joinDigest MULTIPART_UPLOAD_MIN_SIZE c4parts
          c4manifest = .error .entityTooSmall ↔
        ∃ p ∈ c4parts, (findC c4manifest p.part_num).isSome ∧
          p.size < MULTIPART_UPLOAD_MIN_SIZE ∧
          p.part_num ≠ (c4manifest.map CPart.num).foldr max 0) := by
  decide

/-- C4 (amended): part validation raises only `EntityTooSmall` or `InvalidPart`;
`EntityTooSmall` only when some manifest-matched stored part is undersized and not
the last manifest number; `InvalidPart` only when some matched part's claimed
checksum is absent or differs from the stored one, or (for a duplicate-free
manifest) some manifest number has no stored part; success returns exactly the
violation-free partition into used and unused with the used count equal to the
manifest count. The error kind under several simultaneous violations follows the
queryset scan order with the size check before the checksum check, so no
error-selection iff holds. -/
theorem C4_amended (hE : List String → String) (minSize : Nat)
    (parts : List DbPart) (manifest : List CPart)
    (hnodup : (manifest.map CPart.num).Nodup) :
    (∀ e, get_upload_parts_and_validate hE minSize parts manifest = .error e →
        e = .entityTooSmall ∨ e = .invalidPart) ∧
      (get_upload_parts_and_validate hE minSize parts manifest =
          .error .entityTooSmall →
        ∃ p ∈ parts, (findC manifest p.part_num).isSome ∧ p.size < minSize ∧
          p.part_num ≠ ((manifest.map CPart.num).getLast?).getD 0) ∧
      (get_upload_parts_and_validate hE minSize parts manifest =
          .error .invalidPart →
        (∃ p ∈ parts, ∃ c ∈ manifest, c.num = p.part_num ∧
            (c.etag = none ∨ ∃ e, c.etag = some e ∧
              stripChar '"' e ≠ p.part_md5)) ∨
          ∃ n ∈ manifest.map CPart.num, ∀ p ∈ parts, p.part_num ≠ n) ∧
      (∀ used unused etagStr,
        get_upload_parts_and_validate hE minSize parts manifest =
            .ok (used, unused, etagStr) →
          (∀ p ∈ parts, partViolation minSize
            (((manifest.map CPart.num).getLast?).getD 0) manifest p = none) ∧
            used = foldInsert [] (matchedParts manifest parts) ∧
            unused = parts.filter (fun p => ¬ (findC manifest p.part_num).isSome) ∧
            used.length = manifest.length) := by
  refine ⟨?_, ?_, ?_, ?_⟩
  · intro e he
    exact validate_err_kinds hE minSize parts manifest e he
  · intro he
    rcases validate_error_inv hE minSize parts manifest _ he with
      ⟨p, hp, hv⟩ | ⟨hkind, -⟩
    · obtain ⟨h1, h2, h3⟩ := partViolation_ets_inv _ _ _ _ hv
      exact ⟨p, hp, h1, h2, h3⟩
    · exact absurd hkind (by simp)
  · intro he
    rcases validate_error_inv hE minSize parts manifest _ he with
      ⟨p, hp, hv⟩ | ⟨-, hmis⟩
    · obtain ⟨c, hcm, hcn, hrest⟩ := partViolation_ip_inv _ _ _ _ hv
      exact .inl ⟨p, hp, c, hcm, hcn, hrest⟩
    · exact .inr (missing_num_of_count_mismatch manifest parts hnodup hmis)
  · intro used unused etagStr hok
    obtain ⟨h1, h2, h3, h4, -⟩ := validate_ok_inv hE minSize parts manifest
      used unused etagStr hok
    exact ⟨h1, h2, h3, h4⟩

/-- Witness for `C4_amended`: the mixed-violation fixture has a duplicate-free
manifest and its `InvalidPart` verdict is explained by a checksum mismatch or a
missing number. -/
theorem C4_amended_witness :
    (c4manifest.map CPart.num).Nodup ∧
      (get_upload_parts_and_validate joinDigest MULTIPART_UPLOAD_MIN_SIZE c4parts
          c4manifest = .error .invalidPart →
        (∃ p ∈ c4parts, ∃ c ∈ c4manifest, c.num = p.part_num ∧
            (c.etag = none ∨ ∃ e, c.etag = some e ∧
              stripChar '"' e ≠ p.part_md5)) ∨
          ∃ n ∈ c4manifest.map CPart.num, ∀ p ∈ c4parts, p.part_num ≠ n) :=
  ⟨by decide, (C4_amended joinDigest MULTIPART_UPLOAD_MIN_SIZE c4parts c4manifest
    (by decide)).2.2.1⟩

/-- C2: counterexample. A completion whose manifest references a part number with
no stored Part (`rawA` against an empty parts table) is rejected with
`InvalidPart`, but not before side effects: the upload was set Composing (a
Composing-state mutation preceding detection), and the pre-existing non-empty
destination object was truncated — its backend write log is emptied and its
metadata size reset to 0 — all before validation ran. -/
theorem C2_counterexample :
    (complete_multipart_upload envAllOk stPre "k" rawA).2.2 =
        .error .invalidPart ∧
      (complete_multipart_upload envAllOk stPre "k" rawA).1.objWrites = [] ∧
      ¬ stPre.objWrites = [] ∧
      (complete_multipart_upload envAllOk stPre "k" rawA).1.obj =
        some { objPre with si := 0 } ∧
      ¬ stPre.obj = some { objPre with si := 0 } ∧
      Ev.statusSet .composing true ∈
        (complete_multipart_upload envAllOk stPre "k" rawA).2.1 ∧
      Ev.preReset ∈ (complete_multipart_upload envAllOk stPre "k" rawA).2.1 := by
  decide

/-- C2 (amended): a completion whose part validation fails surfaces exactly the
validation error, and (when the status writes succeed) the Upload row and the Part
rows end unmodified — the Composing write is reverted to Uploading before the error
is surfaced, not avoided; the destination object and its backend bytes carry no such
guarantee (see the counterexample: creation and pre-reset truncation happen before
validation). -/
theorem C2_amended (env : Env) (st : St) (u : DbUpload) (key : String)
    (raw : List RawPart) (manifest : List CPart) (numbers : List Nat) (e : S3Err)
    (hdb : env.dbOk = fun _ => true)
    (hu : st.upload = some u) (hkey : u.obj_key = key)
    (hstat : u.status = .uploading)
    (hraw : ¬ raw = [])
    (hparse : handle_validate_complete_parts raw = .ok (manifest, numbers))
    (hval : get_upload_parts_and_validate env.hETag MULTIPART_UPLOAD_MIN_SIZE
      (st.parts.filter (fun p => p.upload_id = u.uid)) manifest = .error e) :
    (complete_multipart_upload env st key raw).2.2 = .error e ∧
      (complete_multipart_upload env st key raw).1.parts = st.parts ∧
      (complete_multipart_upload env st key raw).1.upload = st.upload := by
  simp only [complete_multipart_upload]
  rw [if_neg hraw]
  simp only [hparse, hu]
  rw [if_neg (by simp [hkey]), if_neg (by simp [hstat]), if_neg (by simp [hstat])]
  have hss : setStatus env st u .composing =
      ({ st with
        upload := some { u with status := .composing }, dbCtr := st.dbCtr + 1 },
        { u with status := .composing }, true, [.statusSet .composing true]) := by
    simp [setStatus, St.drawDb, hstat, hdb]
  rw [hss]
  dsimp only
  rw [if_neg (by simp)]
  obtain ⟨h1, h2, h3⟩ := handle_validate_err env
    { st with
      upload := some { u with status := .composing }, dbCtr := st.dbCtr + 1 }
    { u with status := .composing } key manifest numbers e hval
  cases hh : complete_multipart_upload_handle env
      { st with
        upload := some { u with status := .composing }, dbCtr := st.dbCtr + 1 }
      { u with status := .composing } key manifest numbers with
  | mk st2 r2 =>
  obtain ⟨tr2, res⟩ := r2
  rw [hh] at h1 h2 h3
  simp only at h1 h2 h3
  subst h1
  dsimp only
  have hss2 : setStatus env st2 { u with status := .composing } .uploading =
      ({ st2 with
        upload := some { u with status := .uploading }, dbCtr := st2.dbCtr + 1 },
        { u with status := .uploading }, true, [.statusSet .uploading true]) := by
    simp [setStatus, St.drawDb, hdb]
  rw [hss2]
  dsimp only
  refine ⟨rfl, h2, ?_⟩
  rw [upload_eta u .uploading hstat]

/-- Witness for `C2_amended` at the truncating fixture. -/
theorem C2_amended_witness :
    handle_validate_complete_parts rawA = .ok ([⟨1, some "aa"⟩], [1]) ∧
      (complete_multipart_upload envAllOk stPre "k" rawA).2.2 =
        .error .invalidPart ∧
      (complete_multipart_upload envAllOk stPre "k" rawA).1.parts = stPre.parts ∧
      (complete_multipart_upload envAllOk stPre "k" rawA).1.upload =
        stPre.upload :=
  ⟨by decide, C2_amended envAllOk stPre upl1 "k" rawA [⟨1, some "aa"⟩] [1]
    .invalidPart rfl rfl rfl rfl (by decide) (by decide) (by decide)⟩

/-- The trace of one `safe_delete` of the upload row: exactly one delete event,
tagged with its outcome. -/
theorem uploadSafeDelete_trace (env : Env) (st : St) :
    (uploadSafeDelete env st).2.2 =
      [.uploadDelete (uploadSafeDelete env st).2.1] := by
  unfold uploadSafeDelete St.drawDb
  dsimp only
  split <;> simp

/-- A status write towards a different status: the returned instance carries the
new status; the row is updated exactly when the write succeeded; the trace is the
one status event tagged with the outcome. -/
theorem setStatus_result (env : Env) (st : St) (u : DbUpload) (s : UStatus)
    (hne : ¬ u.status = s) :
    (setStatus env st u s).2.1 = { u with status := s } ∧
      ((setStatus env st u s).2.2.1 = true →
        (setStatus env st u s).1.upload = some { u with status := s }) ∧
      ((setStatus env st u s).2.2.1 = false →
        (setStatus env st u s).1.upload = st.upload) ∧
      (setStatus env st u s).2.2.2 =
        [.statusSet s (setStatus env st u s).2.2.1] := by
  unfold setStatus St.drawDb
  rw [if_neg hne]
  dsimp only
  split <;> simp

/-- Every entry of the expected composition trace records the stored size of the
used part its number resolves to. -/
theorem expectedTrace_entry_lookup (used : List (Nat × DbPart)) :
    ∀ ns off t, t ∈ expectedTrace used ns off →
      ∃ p, dictLookup t.1 used = some p ∧ t.2.2 = p.size := by
  intro ns
  induction ns with
  | nil =>
    intro off t h
    simp [expectedTrace] at h
  | cons n rest ih =>
    intro off t h
    cases hlk : dictLookup n used with
    | none => simp [expectedTrace, hlk] at h
    | some part =>
      simp only [expectedTrace, hlk] at h
      rcases List.mem_cons.mp h with h | h
      · subst h
        exact ⟨part, hlk, rfl⟩
      · exact ih _ t h

/-- C3: during stream-composition of a valid completion (a shape-valid manifest has
strictly ascending part numbers), the part-write trace visits exactly the manifest
numbers in that strictly ascending order, each write lands at the cumulative offset
equal to the sum of the sizes written before it (the lower-numbered used parts),
each written size is the stored size of a Part row of this upload carrying that
part number, and the finalized object's size is the sum of all written sizes. -/
theorem C3_compose_ascending_cumulative (env : Env) (st : St) (u : DbUpload)
    (key : String) (manifest : List CPart) (numbers : List Nat) (etagRet : String)
    (hnd : numbers = manifest.map CPart.num)
    (hasc : List.Chain' (· < ·) numbers)
    (hok : (complete_multipart_upload_handle env st u key manifest numbers).2.2 =
      .ok etagRet) :
    (partWrites (complete_multipart_upload_handle env st u key manifest
        numbers).2.1).map (fun t => t.1) = numbers ∧
      List.Chain' (· < ·) ((partWrites (complete_multipart_upload_handle env st u
        key manifest numbers).2.1).map (fun t => t.1)) ∧
      (∀ i t, (partWrites (complete_multipart_upload_handle env st u key manifest
          numbers).2.1)[i]? = some t →
        t.2.1 = sumSizes ((partWrites (complete_multipart_upload_handle env st u
          key manifest numbers).2.1).take i)) ∧
      (∀ t ∈ partWrites (complete_multipart_upload_handle env st u key manifest
          numbers).2.1,
        ∃ p ∈ st.parts, p.upload_id = u.uid ∧ p.part_num = t.1 ∧
          t.2.2 = p.size) ∧
      ∃ o', (complete_multipart_upload_handle env st u key manifest
          numbers).1.obj = some o' ∧
        o'.si = sumSizes (partWrites (complete_multipart_upload_handle env st u
          key manifest numbers).2.1) := by
  cases hv : complete_multipart_upload_handle env st u key manifest numbers with
  | mk st' r =>
  obtain ⟨tr, res⟩ := r
  rw [hv] at hok
  simp only at hok
  subst hok
  obtain ⟨used, unused, hval, htr, ⟨o', ho', hsi, hmd5, hshare⟩, hupl⟩ :=
    handle_ok_inv env st u key manifest numbers st' tr etagRet hv
  dsimp only
  rw [htr]
  have hmnodup : (manifest.map CPart.num).Nodup := by
    rw [← hnd]
    exact (List.chain'_iff_pairwise.mp hasc).imp (fun h => Nat.ne_of_lt h)
  have hlk := dictLookup_used_of_validate_ok _ _ _ _ _ _ _ hmnodup hval
  have hlkAll : ∀ n ∈ numbers, (dictLookup n used).isSome := by
    intro n hn
    obtain ⟨p, hp, hlkp, hpn⟩ := hlk n (by rw [← hnd]; exact hn)
    simp [hlkp]
  have hfst := expectedTrace_map_fst used numbers 0 hlkAll
  obtain ⟨hviol, huse, hunu, hlen, hstr⟩ := validate_ok_inv _ _ _ _ _ _ _ hval
  refine ⟨hfst, ?_, ?_, ?_, o', ho', hsi⟩
  · rw [hfst]
    exact hasc
  · intro i t h
    have := expectedTrace_offsets used numbers 0 i t h
    simpa using this
  · intro t ht
    obtain ⟨p, hlkp, hsz⟩ := expectedTrace_entry_lookup used numbers 0 t ht
    rw [huse] at hlkp
    rcases dictLookup_foldInsert (matchedParts manifest (st.parts.filter
        (fun q => q.upload_id = u.uid))) [] t.1 with h' | ⟨q, hq, hlk2, hqk⟩
    · rw [hlkp] at h'
      simp [dictLookup] at h'
    · rw [hlkp] at hlk2
      injection hlk2 with hpq
      subst hpq
      simp only [matchedParts] at hq
      have hmem1 := List.mem_of_mem_filter hq
      have hupl1 := List.of_mem_filter hmem1
      exact ⟨p, List.mem_of_mem_filter hmem1, by simpa using hupl1, hqk, hsz⟩

/-- Witness for `C3_compose_ascending_cumulative`: even with the parts table in
descending order, the composition trace follows the ascending manifest numbers. -/
theorem C3_witness :
    ([1, 2] : List Nat) =
        ([⟨1, some "aa"⟩, ⟨2, some "bb"⟩] : List CPart).map CPart.num ∧
      List.Chain' (· < ·) ([1, 2] : List Nat) ∧
      (partWrites (complete_multipart_upload_handle envAllOk stDesc upl1 "k"
        [⟨1, some "aa"⟩, ⟨2, some "bb"⟩] [1, 2]).2.1).map (fun t => t.1) =
          [1, 2] :=
  ⟨by decide, by simp,
    (C3_compose_ascending_cumulative envAllOk stDesc upl1 "k"
      [⟨1, some "aa"⟩, ⟨2, some "bb"⟩] [1, 2] "\"bbaa-2\"" (by decide)
      (by simp) (by decide)).1⟩

/-- C1: counterexample. With the parts queryset returned in descending order
(`stDesc`; `get_parts_queryset_by_upload_id` applies no ORDER BY), a valid
completion returns the ETag whose digest hashed the checksums in queryset order
("bb" then "aa"), not the ascending-part-number digest: the claimed ETag would be
`"aabb-2"`(quoted) but the request returns `"bbaa-2"` (quoted). -/
theorem C1_counterexample :
    (complete_multipart_upload envAllOk stDesc "k" rawAB).2.2 =
        .ok "\"bbaa-2\"" ∧
      "\"" ++ joinDigest ["aa", "bb"] ++ "-" ++ toString 2 ++ "\"" =
        "\"aabb-2\"" ∧
      ¬ (complete_multipart_upload envAllOk stDesc "k" rawAB).2.2 =
        .ok "\"aabb-2\"" := by
  decide

/-- C1 (amended): the composite ETag hashes the used parts' stored checksums — in
queryset (table) order, which equals ascending part-number order exactly when the
queryset lists the matched parts ascending. Under that ordering hypothesis a
successful completion's matched parts carry exactly the manifest's numbers in
ascending order, the returned ETag is the quote-wrapped composite digest of their
checksums followed by a dash and the part count, and the object row's persisted
checksum is the other digest (the whole-object digest of the composed byte
stream), so the two-level scheme holds with the ETag a hash over part checksums,
not over bytes. -/
theorem C1_amended (env : Env) (st : St) (u : DbUpload) (key : String)
    (manifest : List CPart) (numbers : List Nat) (etagRet : String)
    (hnd : numbers = manifest.map CPart.num)
    (hasc : List.Chain' (· < ·) numbers)
    (hpasc : List.Pairwise (fun a b => a.part_num < b.part_num)
      (matchedParts manifest (st.parts.filter (fun p => p.upload_id = u.uid))))
    (hok : (complete_multipart_upload_handle env st u key manifest numbers).2.2 =
      .ok etagRet) :
    (matchedParts manifest (st.parts.filter
        (fun p => p.upload_id = u.uid))).map DbPart.part_num = numbers ∧
      etagRet = "\"" ++ env.hETag ((matchedParts manifest (st.parts.filter
        (fun p => p.upload_id = u.uid))).map DbPart.part_md5) ++ "-" ++
        toString numbers.length ++ "\"" ∧
      ∃ o', (complete_multipart_upload_handle env st u key manifest
          numbers).1.obj = some o' ∧
        o'.md5 = env.fmd5 (composedStream env (foldInsert []
          (matchedParts manifest (st.parts.filter
            (fun p => p.upload_id = u.uid)))) numbers) := by
  cases hv : complete_multipart_upload_handle env st u key manifest numbers with
  | mk st' r =>
  obtain ⟨tr, res⟩ := r
  rw [hv] at hok
  simp only at hok
  subst hok
  obtain ⟨used, unused, hval, htr, ⟨o', ho', hsi, hmd5, hshare⟩, hupl⟩ :=
    handle_ok_inv env st u key manifest numbers st' tr etagRet hv
  obtain ⟨hviol, huse, hunu, hlen, hstr⟩ := validate_ok_inv _ _ _ _ _ _ _ hval
  have hmnodup : (manifest.map CPart.num).Nodup := by
    rw [← hnd]
    exact (List.chain'_iff_pairwise.mp hasc).imp (fun h => Nat.ne_of_lt h)
  have hlk := dictLookup_used_of_validate_ok _ _ _ _ _ _ _ hmnodup hval
  have hsorted2 : List.Pairwise (· < ·) ((matchedParts manifest (st.parts.filter
      (fun p => p.upload_id = u.uid))).map DbPart.part_num) :=
    List.pairwise_map.mpr hpasc
  have hnodup2 : ((matchedParts manifest (st.parts.filter
      (fun p => p.upload_id = u.uid))).map DbPart.part_num).Nodup :=
    hsorted2.imp (fun h => Nat.ne_of_lt h)
  have hsub2 : (matchedParts manifest (st.parts.filter
      (fun p => p.upload_id = u.uid))).map DbPart.part_num ⊆ numbers := by
    intro n hn
    obtain ⟨p, hp, hpn⟩ := List.mem_map.mp hn
    have hps : (findC manifest p.part_num).isSome := by
      have := List.of_mem_filter hp
      simpa [matchedParts] using this
    obtain ⟨c, hc⟩ := Option.isSome_iff_exists.mp hps
    have hc' : manifest.find? (fun x => x.num = p.part_num) = some c := by
      simpa [findC] using hc
    have hcm : c ∈ manifest := List.mem_of_find?_eq_some hc'
    have hcn : c.num = p.part_num := by
      simpa using List.find?_some hc'
    rw [hnd]
    exact List.mem_map.mpr ⟨c, hcm, by rw [hcn, hpn]⟩
  have hsub1 : numbers ⊆ (matchedParts manifest (st.parts.filter
      (fun p => p.upload_id = u.uid))).map DbPart.part_num := by
    intro n hn
    obtain ⟨p, hp, hlkp, hpn⟩ := hlk n (by rw [← hnd]; exact hn)
    exact List.mem_map.mpr ⟨p, hp, hpn⟩
  have hnodup1 : numbers.Nodup :=
    (List.chain'_iff_pairwise.mp hasc).imp (fun h => Nat.ne_of_lt h)
  have hperm := (List.subperm_of_subset hnodup2 hsub2).antisymm
    (List.subperm_of_subset hnodup1 hsub1)
  haveI : IsAntisymm Nat (· < ·) :=
    ⟨fun a b h1 h2 => absurd h2 (Nat.lt_asymm h1)⟩
  have hfst : (matchedParts manifest (st.parts.filter
      (fun p => p.upload_id = u.uid))).map DbPart.part_num = numbers :=
    List.eq_of_perm_of_sorted hperm hsorted2 (List.chain'_iff_pairwise.mp hasc)
  refine ⟨hfst, ?_, o', ho', ?_⟩
  · rw [hstr, hnd]
    simp
  · rw [hmd5, huse]

/-- Witness for `C1_amended` on an ascending-order queryset: the digest input is
the checksums keyed by the manifest numbers in ascending order. -/
theorem C1_amended_witness :
    ([1, 2] : List Nat) =
        ([⟨1, some "aa"⟩, ⟨2, some "bb"⟩] : List CPart).map CPart.num ∧
      List.Pairwise (fun a b => a.part_num < b.part_num)
        (matchedParts [⟨1, some "aa"⟩, ⟨2, some "bb"⟩]
          (stAsc.parts.filter (fun p => p.upload_id = upl1.uid))) ∧
      (matchedParts [⟨1, some "aa"⟩, ⟨2, some "bb"⟩]
        (stAsc.parts.filter (fun p => p.upload_id = upl1.uid))).map
          DbPart.part_num = [1, 2] :=
  ⟨by decide, by decide,
    (C1_amended envAllOk stAsc upl1 "k" [⟨1, some "aa"⟩, ⟨2, some "bb"⟩] [1, 2]
      "\"aabb-2\"" (by decide) (by simp) (by decide) (by decide)).1⟩

/-- C5: counterexample. When the revert write fails (`envRevertFail`: only the
first database write succeeds), a completion that performed the
Uploading-to-Composing transition and then failed validation finishes with the
Upload still Composing: none of the claimed three outcomes (deleted, reverted to
Uploading, marked Completed) holds, so the upload is stranded mid-state. -/
theorem C5_counterexample :
    (complete_multipart_upload envRevertFail stPre "k" rawA).2.2 =
        .error .invalidPart ∧
      Ev.statusSet .composing true ∈
        (complete_multipart_upload envRevertFail stPre "k" rawA).2.1 ∧
      Ev.statusSet .uploading false ∈
        (complete_multipart_upload envRevertFail stPre "k" rawA).2.1 ∧
      (complete_multipart_upload envRevertFail stPre "k" rawA).1.upload.map
        DbUpload.status = some .composing ∧
      ¬ ((complete_multipart_upload envRevertFail stPre "k" rawA).1.upload =
          none ∨
        (complete_multipart_upload envRevertFail stPre "k" rawA).1.upload.map
          DbUpload.status = some .uploading ∨
        (complete_multipart_upload envRevertFail stPre "k" rawA).1.upload.map
          DbUpload.status = some .completed) := by
  decide

/-- C5 (amended): a completion request that performed the Uploading-to-Composing
transition (its trace holds the successful Composing write) finishes with the
Upload row deleted, or reverted to Uploading, or marked Completed after at least
two failed row deletions, or — the fourth outcome the claim omits — still
Composing after a failed write out of Composing (the failed revert to Uploading,
or the failed degradation to Completed, is recorded in the trace and its error
ignored). -/
theorem C5_amended (env : Env) (st : St) (key : String) (raw : List RawPart)
    (hcomp : Ev.statusSet .composing true ∈
      (complete_multipart_upload env st key raw).2.1) :
    (complete_multipart_upload env st key raw).1.upload = none ∨
      (complete_multipart_upload env st key raw).1.upload.map DbUpload.status =
        some .uploading ∨
      ((complete_multipart_upload env st key raw).1.upload.map DbUpload.status =
        some .completed ∧
        2 ≤ failedUploadDeletes (complete_multipart_upload env st key raw).2.1) ∨
      ((complete_multipart_upload env st key raw).1.upload.map DbUpload.status =
        some .composing ∧
        revertFailed (complete_multipart_upload env st key raw).2.1) := by
  simp only [complete_multipart_upload] at hcomp ⊢
  by_cases hraw : raw = []
  · rw [if_pos hraw] at hcomp
    simp at hcomp
  · rw [if_neg hraw] at hcomp ⊢
    cases hparse : handle_validate_complete_parts raw with
    | error e =>
      simp only [hparse] at hcomp
      simp at hcomp
    | ok pr =>
      obtain ⟨manifest, numbers⟩ := pr
      simp only [hparse] at hcomp ⊢
      cases hu : st.upload with
      | none =>
        simp only [hu] at hcomp
        simp at hcomp
      | some u =>
        simp only [hu] at hcomp ⊢
        by_cases hkc : u.obj_key ≠ key
        · rw [if_pos hkc] at hcomp
          simp at hcomp
        · rw [if_neg hkc] at hcomp ⊢
          by_cases hcompl : u.status = .completed
          · rw [if_pos hcompl] at hcomp
            dsimp only at hcomp
            rw [uploadSafeDelete_trace env st] at hcomp
            simp at hcomp
          · rw [if_neg hcompl] at hcomp ⊢
            by_cases hcsing : u.status = .composing
            · rw [if_pos hcsing] at hcomp
              simp at hcomp
            · rw [if_neg hcsing] at hcomp ⊢
              obtain ⟨hru, hok1, hok0, htr1⟩ :=
                setStatus_result env st u .composing hcsing
              cases hss : setStatus env st u .composing with
              | mk st1 r1 =>
              obtain ⟨u1, okSet, tr1⟩ := r1
              rw [hss] at hru hok1 hok0 htr1 hcomp
              simp only at hru hok1 hok0 htr1
              subst hru
              dsimp only at hcomp ⊢
              cases okSet with
              | false =>
                rw [if_pos (by simp)] at hcomp
                dsimp only at hcomp
                rw [htr1] at hcomp
                simp at hcomp
              | true =>
                rw [if_neg (by simp)] at hcomp ⊢
                cases hh : complete_multipart_upload_handle env st1
                    { u with status := .composing } key manifest numbers with
                | mk st2 r2 =>
                obtain ⟨tr2, res⟩ := r2
                rw [hh] at hcomp
                dsimp only at hcomp ⊢
                cases res with
                | ok etag =>
                  dsimp only at hcomp ⊢
                  obtain ⟨used, unused, hval, htrw, hobj, hupl⟩ :=
                    handle_ok_inv env st1 _ key manifest numbers st2 tr2 etag hh
                  rcases hupl with h | ⟨h, hcnt⟩ | ⟨h, hcnt, hrev⟩
                  · exact .inl h
                  · refine .inr (.inr (.inl ⟨?_, ?_⟩))
                    · rw [h]
                      rfl
                    · rw [failedUploadDeletes_append]
                      omega
                  · rcases hrev with hev | hstatc
                    · refine .inr (.inr (.inr ⟨?_, ?_⟩))
                      · rw [h, hok1 rfl]
                        rfl
                      · exact .inr (List.mem_append_right _ hev)
                    · exact absurd hstatc (by simp)
                | error e =>
                  have hu2 : st2.upload = st1.upload :=
                    handle_err_upload env st1 _ key manifest numbers st2 tr2 e hh
                  obtain ⟨hru2, hok12, hok02, htr12⟩ :=
                    setStatus_result env st2 { u with status := .composing }
                      .uploading (by simp)
                  cases hss2 : setStatus env st2 { u with status := .composing }
                      .uploading with
                  | mk st3 r3 =>
                  obtain ⟨u2, ok2, tr3⟩ := r3
                  rw [hss2] at hru2 hok12 hok02 htr12
                  simp only at hru2 hok12 hok02 htr12
                  dsimp only at hcomp ⊢
                  cases ok2 with
                  | true =>
                    refine .inr (.inl ?_)
                    rw [hok12 rfl]
                    rfl
                  | false =>
                    refine .inr (.inr (.inr ⟨?_, ?_⟩))
                    · rw [hok02 rfl, hu2, hok1 rfl]
                      rfl
                    · refine .inl ?_
                      rw [htr12]
                      simp

/-- Witness for `C5_amended`: a fully successful completion performed the
transition and ends with the Upload row deleted. -/
theorem C5_amended_witness :
    Ev.statusSet .composing true ∈
        (complete_multipart_upload envAllOk stDesc "k" rawAB).2.1 ∧
      ((complete_multipart_upload envAllOk stDesc "k" rawAB).1.upload = none ∨
        (complete_multipart_upload envAllOk stDesc "k" rawAB).1.upload.map
          DbUpload.status = some .uploading ∨
        ((complete_multipart_upload envAllOk stDesc "k" rawAB).1.upload.map
          DbUpload.status = some .completed ∧
          2 ≤ failedUploadDeletes
            (complete_multipart_upload envAllOk stDesc "k" rawAB).2.1) ∨
        ((complete_multipart_upload envAllOk stDesc "k" rawAB).1.upload.map
          DbUpload.status = some .composing ∧
          revertFailed (complete_multipart_upload envAllOk stDesc "k" rawAB).2.1)) :=
  ⟨by decide, C5_amended envAllOk stDesc "k" rawAB (by decide)⟩

end IHarbor







